import Mathlib

/-!
Verification of the `graceful` descriptor-passing library.

This file embeds the core of the library (the outbound buffering writer
`response.Write` / `response.Flush`, the inbound parser `receive` /
`ReceiveAllFrom`, the per-connection worker and the accept loop of
`Server.Serve`) as executable Lean definitions, and proves the stated
properties about them.

Modelling conventions:
* Go byte slices are `List Nat`; machine arithmetic that matters
  (`uint32` truncation in the 4-byte little-endian frame header) is made
  explicit with `% 2^32` style byte decomposition.
* The Unix-socket transport is message preserving: one `WriteMsgUnix`
  produces one `Message` carrying the payload bytes and the parsed
  control-message list (the byte-level `cmsg` encoding produced by
  `syscall.UnixRights` and decoded by `ParseSocketControlMessage` /
  `ParseUnixRights` is abstracted as the list of descriptor lists it
  round-trips to; `syscall.CmsgSpace(4) = 24` on linux/amd64).
* A metadata source (`io.WriterTo`) is modelled as the list of byte
  chunks it writes, in order, plus an optional error of its own that it
  returns after its writes succeeded.  A well-behaved `WriterTo` stops at
  the first failed write and returns that error.
* Errors are the inductive `GoErr`; `GoErr.opWrap` models a `net.OpError`
  wrapper, `GoErr.cb`/`GoErr.writerTo` model errors supplied by the user
  callback resp. metadata source, `GoErr.ioErr` models transport errors,
  and `GoErr.panicked` models a Go runtime panic (index out of range).
-/

namespace Graceful

/-- Errors of the library and its environment. -/
inductive GoErr where
  | eof
  | opWrap (e : GoErr)
  | longWrite
  | shortWrite
  | notUnixConn
  | notUnixListener
  | emptyControlMessage
  | emptyFileDescriptors
  | cb (n : Nat)
  | writerTo (n : Nat)
  | ioErr (n : Nat)
  | panicked
  deriving DecidableEq, Repr

/-- `isEOF` from client.go: unwrap one `net.OpError` layer and compare with
`io.EOF`. -/
def isEOF : GoErr → Bool
  | .eof => true
  | .opWrap .eof => true
  | _ => false

/-- `binary.LittleEndian.PutUint32`: the 4 little-endian bytes of
`uint32(n)`. -/
def le32 (n : Nat) : List Nat :=
  [n % 256, n / 256 % 256, n / 65536 % 256, n / 16777216 % 256]

/-- `binary.LittleEndian.Uint32` on a 4-byte header buffer. -/
def le32dec (b : List Nat) : Nat :=
  b.getD 0 0 + 256 * b.getD 1 0 + 65536 * b.getD 2 0 + 16777216 * b.getD 3 0

/-- `const msgHeaderSize = 4`. -/
def msgHeaderSize : Nat := 4

/-- `var zeroHeader = []byte{0, 0, 0, 0}`. -/
def zeroHeader : List Nat := [0, 0, 0, 0]

/-- `syscall.CmsgSpace(4)` on linux/amd64. -/
def cmsgSpace4 : Nat := 24

/-- `sizeFromCmsgSpace` from server.go. -/
def sizeFromCmsgSpace (n : Nat) : Nat := n / cmsgSpace4

/-- One kernel message: regular payload plus the ancillary control-message
list (each entry the descriptor list a `ParseUnixRights` yields). -/
structure Message where
  payload : List Nat
  cmsgs : List (List Int)
  deriving DecidableEq, Repr

/-- A metadata source: a well-behaved `io.WriterTo` writing these byte
chunks in order, then returning `finalErr` (if any) once all its writes
succeeded. -/
structure WriterTo where
  chunks : List (List Nat)
  finalErr : Option Nat
  deriving DecidableEq, Repr

/-- Result of `meta.WriteTo(limbuf)` together with the bytes that ended up
in the `bytes.Buffer` and the final value of `limbuf.E`. -/
structure WTRes where
  written : List Nat
  n : Nat
  err : Option GoErr
  E : Bool
  deriving DecidableEq, Repr

/-- The chunk loop of a well-behaved `WriterTo` against `limitedWriter`.

`limitedWriter.Write` in server.go has a VALUE receiver, so the updates
`w.E = true` and `w.N -= n` are made on a copy of the writer: every chunk
is checked against the original limit `N`, and the persistent `limbuf.E`
stays false.  A chunk is rejected when `w.N <= 0 || len(p) > w.N`, in
which case `Write` returns `(0, ErrLongWrite)` and the `WriterTo` stops,
returning the bytes written so far and that error.  The underlying
`bytes.Buffer` write itself never fails. -/
def writeChunks (N : Int) : List (List Nat) → List Nat → List Nat × Option GoErr
  | [], acc => (acc, none)
  | c :: cs, acc =>
    if N ≤ 0 ∨ N < (c.length : Int) then (acc, some .longWrite)
    else writeChunks N cs (acc ++ c)

/-- `meta.WriteTo(limbuf)` for a well-behaved `WriterTo`: the value
receiver on `limitedWriter.Write` means the observed `limbuf.E` is always
`false`. -/
def writeToSim (N : Int) (m : WriterTo) : WTRes :=
  match writeChunks N m.chunks [] with
  | (w, some e) => ⟨w, w.length, some e, false⟩
  | (w, none) => ⟨w, w.length, m.finalErr.map GoErr.writerTo, false⟩

/-- The `response` outbound buffer: `buf` is a fixed array of length
`msgn` of which only the first `n` bytes are ever sent, so we keep just
that leading run as `payload` (`payload.length` is `r.n`). -/
structure Resp where
  msgn : Nat
  fdcap : Nat
  payload : List Nat
  fds : List Int
  err : Option GoErr
  deriving DecidableEq, Repr

/-- `newResponse` from server.go. -/
def newResponse (msgn oobn : Nat) : Resp :=
  ⟨msgn, sizeFromCmsgSpace oobn, [], [], none⟩

/-- `response.Flush`, parameterised by the `WriteMsgUnix` outcome: `werr`
is a transport error, `short` makes the kernel accept fewer bytes than
requested (`io.ErrShortWrite`).  Returns the new state, the message put
on the wire (if the send succeeded) and the returned error.  Note the
source stores `err` into `r.err` and resets `n` and `fds`
unconditionally after the send. -/
def Resp.flushWith (r : Resp) (werr : Option Nat) (short : Bool) :
    Resp × Option Message × Option GoErr :=
  match r.err with
  | some e => (r, none, some e)
  | none =>
    if r.fds.length = 0 then (r, none, none)
    else
      let e : Option GoErr :=
        match werr with
        | some n => some (.ioErr n)
        | none => if short then some .shortWrite else none
      let msg : Option Message :=
        if werr.isNone then some ⟨r.payload, [r.fds]⟩ else none
      ({ r with payload := [], fds := [], err := e }, msg, e)

/-- Appending the zero header frame (`meta == nil` branch of
`response.Write`). -/
def Resp.appendZero (r : Resp) (fd : Int) : Resp :=
  { r with payload := r.payload ++ zeroHeader, fds := r.fds ++ [fd] }

/-- Appending a header plus metadata bytes.  On the `mustCopy` path the
source uses `copy(r.buf[r.n:], metaBytes)`, which silently truncates to
the space left in the buffer. -/
def Resp.appendMeta (r : Resp) (fd : Int) (mb : List Nat) (mustCopy : Bool) : Resp :=
  let withHeader := r.payload ++ le32 mb.length
  let body := if mustCopy then mb.take (r.msgn - withHeader.length) else mb
  { r with payload := withHeader ++ body, fds := r.fds ++ [fd] }

/-- Outcome of one iteration of the retry loop in `response.Write`. -/
inductive WIter where
  | ok (r : Resp)
  | fail (e : GoErr)
  | flushReq (mb : Option (List Nat)) (mc : Bool)
  | again
  deriving DecidableEq, Repr

/-- One iteration of the `response.Write` loop when `meta == nil`:
`none` is the `goto flush` case. -/
def writeIterNil (r : Resp) (fd : Int) : Option Resp :=
  if r.fds.length = r.fdcap then none
  else if r.msgn - r.payload.length < msgHeaderSize then none
  else some (r.appendZero fd)

/-- One iteration of the `response.Write` loop when `meta != nil`.
`mb` is the `metaBytes` slice captured by an earlier iteration, `mc` the
`mustCopy` flag.  When `metaBytes` is still nil the metadata is written
through `limitedWriter` into a `bytes.Buffer` aliasing
`r.buf[r.n+4 : msgn]` (capacity `cap0`); if the buffer reallocated
(`&metaBytes[0] != &p[0]`) the write must be retried after a flush with
an explicit copy — and when `cap0 = 0` that pointer comparison indexes
the empty slice `p` and panics. -/
def writeIterSome (r : Resp) (fd : Int) (m : WriterTo)
    (mb : Option (List Nat)) (mc : Bool) : WIter :=
  if r.fds.length = r.fdcap then .flushReq mb mc
  else if r.msgn - r.payload.length < msgHeaderSize then .flushReq mb mc
  else
    match mb with
    | some mbv => .ok (r.appendMeta fd mbv mc)
    | none =>
      let cap0 := r.msgn - r.payload.length - msgHeaderSize
      let res := writeToSim ((r.msgn : Int) - (msgHeaderSize : Int)) m
      if res.E then .fail .longWrite
      else
        match res.err with
        | some e => .fail e
        | none =>
          if res.n = 0 then .again
          else if cap0 < res.written.length then
            if cap0 = 0 then .fail .panicked
            else .flushReq (some res.written) true
          else .ok (r.appendMeta fd res.written false)

/-- Result of `response.Write`: new state, messages emitted by the
implicit flush, returned error, and the number of `Flush` calls made. -/
structure WriteOut where
  r : Resp
  msgs : List Message
  res : Option GoErr
  flushes : Nat
  deriving DecidableEq, Repr

/-- The `flush:` label of `response.Write` followed by the retry, for a
nil metadata: `ret` has been set to `ErrLongWrite`, so a second arrival
at the label returns it without flushing again. -/
def flushThenNil (r : Resp) (fd : Int) (werr : Option Nat) (short : Bool) : WriteOut :=
  match r.flushWith werr short with
  | (r1, msg?, some e) => ⟨r1, msg?.toList, some e, 1⟩
  | (r1, msg?, none) =>
    match writeIterNil r1 fd with
    | some r2 => ⟨r2, msg?.toList, none, 1⟩
    | none => ⟨r1, msg?.toList, some .longWrite, 1⟩

/-- The `flush:` label of `response.Write` followed by the retry, for a
non-nil metadata.  A retry that reaches the label again returns the
pending `ErrLongWrite`; a retry whose `WriteTo` wrote zero bytes sets
`meta = nil` and falls through to the nil-metadata iteration. -/
def flushThenSome (r : Resp) (fd : Int) (m : WriterTo)
    (mb : Option (List Nat)) (mc : Bool) (werr : Option Nat) (short : Bool) : WriteOut :=
  match r.flushWith werr short with
  | (r1, msg?, some e) => ⟨r1, msg?.toList, some e, 1⟩
  | (r1, msg?, none) =>
    match writeIterSome r1 fd m mb mc with
    | .ok r2 => ⟨r2, msg?.toList, none, 1⟩
    | .fail e => ⟨r1, msg?.toList, some e, 1⟩
    | .flushReq _ _ => ⟨r1, msg?.toList, some .longWrite, 1⟩
    | .again =>
      match writeIterNil r1 fd with
      | some r2 => ⟨r2, msg?.toList, none, 1⟩
      | none => ⟨r1, msg?.toList, some .longWrite, 1⟩

/-- `response.Write(fd, meta)`.  The `goto`-based loop of the source is
unrolled: the loop body runs, and on capacity exhaustion flushes once and
retries; a `WriteTo` writing zero bytes turns the metadata into nil and
re-runs the body without flushing.  `werr`/`short` fix the transport
outcome of the implicit flush. -/
def respWrite (r : Resp) (fd : Int) (meta : Option WriterTo)
    (werr : Option Nat) (short : Bool) : WriteOut :=
  match r.err with
  | some e => ⟨r, [], some e, 0⟩
  | none =>
    match meta with
    | none =>
      match writeIterNil r fd with
      | some r1 => ⟨r1, [], none, 0⟩
      | none => flushThenNil r fd werr short
    | some m =>
      match writeIterSome r fd m none false with
      | .ok r1 => ⟨r1, [], none, 0⟩
      | .fail e => ⟨r, [], some e, 0⟩
      | .flushReq mb mc => flushThenSome r fd m mb mc werr short
      | .again =>
        match writeIterNil r fd with
        | some r1 => ⟨r1, [], none, 0⟩
        | none => flushThenNil r fd werr short

/-- Behaviour of one callback invocation: how many bytes of the offered
metadata reader it consumes, and the error it returns (`some n` becomes
the Go error modelled by `GoErr.cb n`). -/
structure CbB where
  reads : Nat
  err : Option Nat
  deriving DecidableEq, Repr

/-- What one callback invocation is shown: the descriptor and the full
contents of the metadata reader (`none` when the frame length is zero and
the source passes a nil reader). -/
structure Obs where
  fd : Int
  meta : Option (List Nat)
  deriving DecidableEq, Repr

/-- The per-descriptor frame loop of `receive` (client.go).  `rest` is
the unread part of `bytes.NewReader(msg[:msgn])`, `p` the 4-byte header
scratch buffer (its stale bytes survive a short read), `cbs i` the
behaviour of the `i`-th callback invocation.  `r.Read(p)` fails (with
`io.EOF`) only on an empty reader; otherwise it reads up to 4 bytes into
`p`.  A frame length `n > 0` wraps the reader in `io.LimitReader`; after
a successful callback `io.Copy(ioutil.Discard, meta)` consumes whatever
of the limited reader the callback left unread. -/
def frameLoop : List Int → List Nat → List Nat → (Nat → CbB) → Nat →
    List Obs × Option GoErr
  | [], _, _, _, _ => ([], none)
  | fd :: fds, rest, p, cbs, i =>
    if rest.length = 0 then ([], some .eof)
    else
      let k := min 4 rest.length
      let p1 := rest.take k ++ p.drop k
      let rest1 := rest.drop k
      let n := le32dec p1
      let presented := rest1.take n
      let ob : Obs := ⟨fd, if 0 < n then some presented else none⟩
      match (cbs i).err with
      | some e => ([ob], some (.cb e))
      | none =>
        let consumed1 := min (cbs i).reads presented.length
        let rest2 := rest1.drop (consumed1 + (presented.length - consumed1))
        match frameLoop fds rest2 p1 cbs (i + 1) with
        | (os, res) => (ob :: os, res)

/-- `receive` (client.go) applied to one delivered message, minus the
connection-type check done by its callers here: read the payload into the
`msgsize`-byte scratch buffer, parse the control messages, and run the
frame loop over the descriptors of the first one. -/
def receiveOne (msgsize : Nat) (m : Message) (cbs : Nat → CbB) (i : Nat) :
    List Obs × Option GoErr :=
  let data := m.payload.take msgsize
  match m.cmsgs with
  | [] => ([], some .emptyControlMessage)
  | c0 :: _ =>
    if c0 = [] then ([], some .emptyFileDescriptors)
    else frameLoop c0 data [0, 0, 0, 0] cbs i

/-- A connection as the receiver sees it: whether it is a
`*net.UnixConn`, the queue of delivered messages, and the error
`ReadMsgUnix` reports once the queue is empty (`opWrap eof` is the
`net.OpError`-wrapped EOF of an orderly close). -/
structure Conn where
  isUnix : Bool
  msgs : List Message
  tailErr : GoErr
  deriving DecidableEq, Repr

/-- `Client.ReceiveFrom` / `receive`: the connection-type check, one read
(reporting the tail error, normalised to `io.EOF` by `isEOF`, when no
message is left) and one parsed message. -/
def receiveFrom (msgsize : Nat) (c : Conn) (cbs : Nat → CbB) :
    List Obs × Option GoErr :=
  if c.isUnix = false then ([], some .notUnixConn)
  else
    match c.msgs with
    | [] => ([], some (if isEOF c.tailErr then GoErr.eof else c.tailErr))
    | m :: _ => receiveOne msgsize m cbs 0

/-- `Client.ReceiveAllFrom`: loop `receive` until it returns an error,
translating `io.EOF` into a nil result.  The invocation counter `i`
numbers callback invocations across the whole loop. -/
def receiveAll (msgsize : Nat) (isUnix : Bool) :
    List Message → GoErr → (Nat → CbB) → Nat → List Obs × Option GoErr
  | msgs, tailErr, cbs, i =>
    if isUnix = false then ([], some .notUnixConn)
    else
      match msgs with
      | [] =>
        let e := if isEOF tailErr then GoErr.eof else tailErr
        ([], if e = .eof then none else some e)
      | m :: rest =>
        match receiveOne msgsize m cbs i with
        | (obs, none) =>
          match receiveAll msgsize isUnix rest tailErr cbs (i + obs.length) with
          | (os, r) => (obs ++ os, r)
        | (obs, some e) => (obs, if e = .eof then none else some e)

/-! ### The per-connection worker and the accept loop (server.go) -/

/-- Observable events of the worker goroutine spawned by `Server.Serve`
for one accepted connection. -/
inductive WEvent where
  | handle
  | flushCall (failed : Bool)
  | logFlushErr
  | logSent
  | logPanic
  | logClosing
  | closeConn
  deriving DecidableEq, Repr

/-- The worker goroutine body (server.go lines 151-173) as an event
trace. The goroutine body creates the response writer, runs the handler,
then flushes and logs; the deferred function recovers a panic (logging
it) and always closes the connection.  A handler panic unwinds straight
to the deferred function: the flush statement after the handler call is
then never reached. -/
def workerRun (panics : Bool) (flushFails : Bool) : List WEvent :=
  let body :=
    [WEvent.handle] ++
      (if panics then []
       else [WEvent.flushCall flushFails] ++
         (if flushFails then [WEvent.logFlushErr] else [WEvent.logSent]))
  let deferred :=
    (if panics then [WEvent.logPanic] else []) ++ [WEvent.logClosing, WEvent.closeConn]
  body ++ deferred

/-- One `AcceptUnix` outcome: a connection, or an error with its
`net.Error` / `Temporary()` classification. -/
inductive AcceptOutcome where
  | conn (id : Nat)
  | aerr (isNetErr : Bool) (temporary : Bool) (e : GoErr)
  deriving DecidableEq, Repr

/-- Observable events of the accept loop. -/
inductive SEvent where
  | debugDelay
  | spawn (id : Nat)
  deriving DecidableEq, Repr

/-- The accept loop of `Server.Serve` over a finite schedule of accept
outcomes: a temporary net error is logged at debug level, the loop sleeps
and retries; any other error returns from `Serve`; a connection spawns a
worker. `none` as result means the schedule ran out with the loop still
accepting. -/
def serveLoop : List AcceptOutcome → List SEvent × Option GoErr
  | [] => ([], none)
  | .conn id :: rest =>
    match serveLoop rest with
    | (es, r) => (SEvent.spawn id :: es, r)
  | .aerr isNet temp e :: rest =>
    if isNet && temp then
      match serveLoop rest with
      | (es, r) => (SEvent.debugDelay :: es, r)
    else ([], some e)

/-- `Server.Serve`: the `*net.UnixListener` type check, then the accept
loop. -/
def serve (isUnixListener : Bool) (sched : List AcceptOutcome) :
    List SEvent × Option GoErr :=
  if isUnixListener = false then ([], some .notUnixListener)
  else serveLoop sched

/-! ### Round-trip scaffolding -/

/-- The `io.WriterTo` of a plain byte string (as `strings.Reader` /
`bytes.Reader`): a single write of the remaining bytes, or no write at
all when empty. -/
def bytesWT (b : List Nat) : WriterTo :=
  ⟨if b.isEmpty then [] else [b], none⟩

/-- One wire frame: 4-byte little-endian length then the metadata
bytes. -/
def frame (b : List Nat) : List Nat := le32 b.length ++ b

/-- The payload of a batch of (descriptor, metadata bytes) pairs. -/
def framesOf (batch : List (Int × List Nat)) : List Nat :=
  (batch.map fun pr => frame pr.2).flatten

/-- The kernel message a `Flush` of this batch produces. -/
def MsgOf (batch : List (Int × List Nat)) : Message :=
  ⟨framesOf batch, [batch.map Prod.fst]⟩

/-- A batch the outbound buffer can actually have sent: nonempty, its
payload within the buffer capacity, every frame individually within
capacity. -/
def GoodBatch (msgn : Nat) (batch : List (Int × List Nat)) : Prop :=
  batch ≠ [] ∧ (framesOf batch).length ≤ msgn ∧
    ∀ pr ∈ batch, pr.2.length + 4 ≤ msgn

instance (msgn : Nat) (batch : List (Int × List Nat)) :
    Decidable (GoodBatch msgn batch) := by
  unfold GoodBatch; exact inferInstance

/-- Normalise a write request: a nil metadata and empty metadata both
travel as the empty byte string. -/
def normWs (ws : List (Int × Option (List Nat))) : List (Int × List Nat) :=
  ws.map fun pr => (pr.1, pr.2.getD [])

/-- The observation the receiver's callback makes for one pair: the
descriptor, and a nil reader for an empty frame. -/
def obsOf (pr : Int × List Nat) : Obs :=
  ⟨pr.1, if pr.2 = [] then none else some pr.2⟩

/-- Drive a sequence of `response.Write` calls (ideal transport),
collecting the messages the implicit flushes emit; `none` if any write
returns an error. -/
def sendAll : Resp → List (Int × Option (List Nat)) → Option (Resp × List Message)
  | r, [] => some (r, [])
  | r, (fd, mo) :: rest =>
    match (respWrite r fd (mo.map bytesWT) none false).res with
    | some _ => none
    | none =>
      match sendAll (respWrite r fd (mo.map bytesWT) none false).r rest with
      | some (rf, ms) =>
        some (rf, (respWrite r fd (mo.map bytesWT) none false).msgs ++ ms)
      | none => none

/-- Write a sequence of pairs and then `Flush` (ideal transport): the
full list of messages put on the wire. -/
def sendAndFlush (r : Resp) (ws : List (Int × Option (List Nat))) :
    Option (Resp × List Message) :=
  match sendAll r ws with
  | none => none
  | some (rf, ms) =>
    match rf.flushWith none false with
    | (rf2, msg?, none) => some (rf2, ms ++ msg?.toList)
    | (_, _, some _) => none

/-- The buffer state that holds exactly the frames of `batch`. -/
def BatchState (r : Resp) (batch : List (Int × List Nat)) : Prop :=
  r.payload = framesOf batch ∧ r.fds = batch.map Prod.fst ∧ r.err = none ∧
    r.payload.length ≤ r.msgn ∧ batch.length ≤ r.fdcap ∧
    ∀ pr ∈ batch, pr.2.length + 4 ≤ r.msgn

/-! ### Basic lemmas -/

theorem le32_length (n : Nat) : (le32 n).length = 4 := rfl

theorem le32dec_le32 (n : Nat) (h : n < 2 ^ 32) : le32dec (le32 n) = n := by
  simp [le32, le32dec]
  omega

theorem framesOf_nil : framesOf [] = [] := rfl

theorem framesOf_cons (pr : Int × List Nat) (B : List (Int × List Nat)) :
    framesOf (pr :: B) = frame pr.2 ++ framesOf B := by
  simp [framesOf]

theorem framesOf_append (B C : List (Int × List Nat)) :
    framesOf (B ++ C) = framesOf B ++ framesOf C := by
  simp [framesOf]

theorem frame_nil : frame [] = zeroHeader := rfl

/-! ### Claim theorems -/

/-- C2: the spec claims that writing metadata whose encoded size plus the
4-byte header exceeds the buffer's total payload capacity always returns
`ErrLongWrite` and never emits an incomplete frame.  The code violates this:
`limitedWriter.Write` has a value receiver, so its `w.E = true` / `w.N -= n`
updates are lost, and a metadata source writing two 5-byte chunks into a
10-byte buffer (6 bytes of capacity after the header) passes the limiter,
forces a `bytes.Buffer` reallocation, and on the copy-after-flush path is
silently truncated: `Write` returns nil and the wire carries a frame header
claiming 10 bytes followed by only 6 bytes of metadata. -/
theorem c2_oversize_write_truncated_frame :
    respWrite ⟨10, 170, [], [], none⟩ 1 (some ⟨[[7, 7, 7, 7, 7], [8, 8, 8, 8, 8]], none⟩)
        none false =
      ⟨⟨10, 170, [10, 0, 0, 0, 7, 7, 7, 7, 7, 8], [1], none⟩, [], none, 1⟩ := by
  decide

/-- Is a worker trace event a `resp.Flush()` attempt? -/
def isFlushEvent : WEvent → Bool
  | .flushCall _ => true
  | _ => false

/-- C3 counterexample: the claim says the worker attempts exactly one
`Flush` after handler completion whether the handler returned normally or
panicked.  In the code the flush statement sits after the handler call in
the goroutine body, not in the deferred function, so a panicking handler
unwinds past it: the worker trace for a panicking handler contains no
flush attempt at all (it only logs the panic and closes). -/
theorem c3_counterexample :
    (workerRun true false).filter isFlushEvent = [] ∧
    (workerRun true false).getLast? = some .closeConn := by
  decide

/-- C3 (amended): after a normal handler return the worker attempts
exactly one `Flush` and then closes the connection regardless of the
flush outcome (a flush failure is logged and is not fatal); after a
recovered panic the worker logs the panic and closes the connection
without attempting a flush. -/
theorem c3_amended (p f : Bool) :
    ((workerRun p f).filter isFlushEvent).length = (if p then 0 else 1) ∧
    (workerRun p f).getLast? = some .closeConn ∧
    (WEvent.logFlushErr ∈ workerRun p f) = (p = false ∧ f = true) ∧
    (WEvent.logPanic ∈ workerRun p f) = (p = true) := by
  cases p <;> cases f <;> simp [workerRun, isFlushEvent]

/-- C5 counterexample: the claim says any non-long-write error occurring
during a `Write` permanently fails the buffer and is returned by every
later call.  An error returned by the metadata source's `WriteTo` during
`response.Write` is propagated to the caller but never stored into
`r.err`: the very next `Write` on the same buffer succeeds. -/
theorem c5_counterexample :
    (respWrite (newResponse 16 48) 3 (some ⟨[], some 7⟩) none false).res =
        some (.writerTo 7) ∧
    (respWrite (newResponse 16 48) 3 (some ⟨[], some 7⟩) none false).r.err = none ∧
    (respWrite ((respWrite (newResponse 16 48) 3 (some ⟨[], some 7⟩) none false).r)
        4 none none false).res = none := by
  decide

/-- C5 (amended): once a `Flush` — explicit or the implicit one inside
`Write` — fails, the error is stored and the buffer is permanently
failed: every subsequent `Write` and `Flush` returns that same stored
error without mutating the buffer, emitting a message or touching the
transport.  (Errors returned by the metadata source during `Write` are
propagated but not stored.) -/
theorem c5_terminal_flush_error (r : Resp) (fd : Int) (mo : Option WriterTo)
    (werr : Option Nat) (short short2 : Bool) (k : Nat)
    (h : r.err = none) (hf : r.fds ≠ []) :
    (r.flushWith (some k) short).2.2 = some (.ioErr k) ∧
    (r.flushWith (some k) short).1.err = some (.ioErr k) ∧
    respWrite (r.flushWith (some k) short).1 fd mo werr short2 =
      ⟨(r.flushWith (some k) short).1, [], some (.ioErr k), 0⟩ ∧
    (r.flushWith (some k) short).1.flushWith werr short2 =
      ((r.flushWith (some k) short).1, none, some (.ioErr k)) := by
  have hl : ¬ r.fds.length = 0 := by simpa using hf
  refine ⟨?_, ?_, ?_, ?_⟩ <;> simp [Resp.flushWith, respWrite, h, hl]

theorem c5_terminal_flush_error_witness :
    ((⟨8, 2, [0, 0, 0, 0], [3], none⟩ : Resp).flushWith (some 5) false).2.2 =
        some (.ioErr 5) ∧
    ((⟨8, 2, [0, 0, 0, 0], [3], none⟩ : Resp).flushWith (some 5) false).1.err =
        some (.ioErr 5) ∧
    respWrite ((⟨8, 2, [0, 0, 0, 0], [3], none⟩ : Resp).flushWith (some 5) false).1
        4 none none false =
      ⟨((⟨8, 2, [0, 0, 0, 0], [3], none⟩ : Resp).flushWith (some 5) false).1, [],
        some (.ioErr 5), 0⟩ ∧
    ((⟨8, 2, [0, 0, 0, 0], [3], none⟩ : Resp).flushWith (some 5) false).1.flushWith
        none false =
      (((⟨8, 2, [0, 0, 0, 0], [3], none⟩ : Resp).flushWith (some 5) false).1, none,
        some (.ioErr 5)) :=
  c5_terminal_flush_error ⟨8, 2, [0, 0, 0, 0], [3], none⟩ 4 none none false false 5
    rfl (by decide)

/-- C8: `Flush` on a buffer holding no descriptors and no stored error
returns no error, performs no send and leaves the state unchanged;
moreover, immediately after any successful (ideal-transport) flush a
second flush is exactly such a no-op. -/
theorem c8_flush_empty_noop (r : Resp) (werr2 : Option Nat) (short2 : Bool)
    (h : r.err = none) :
    (r.fds = [] → r.flushWith werr2 short2 = (r, none, none)) ∧
    (r.flushWith none false).1.flushWith werr2 short2 =
      ((r.flushWith none false).1, none, none) := by
  constructor
  · intro hf
    simp [Resp.flushWith, h, hf]
  · by_cases hf : r.fds.length = 0
    · simp [Resp.flushWith, h, hf]
    · simp [Resp.flushWith, h, hf]

theorem c8_flush_empty_noop_witness :
    (newResponse 8 48).flushWith none false = (newResponse 8 48, none, none) ∧
    ((newResponse 8 48).flushWith none false).1.flushWith none false =
      (((newResponse 8 48).flushWith none false).1, none, none) :=
  ⟨(c8_flush_empty_noop (newResponse 8 48) none false rfl).1 rfl,
   (c8_flush_empty_noop (newResponse 8 48) none false rfl).2⟩

/-- C9: on each accept attempt, a temporary net error makes the serve
loop log at debug level, sleep the fixed backoff and retry accepting (it
never terminates the loop); any other accept error terminates the loop
and is propagated as the return value of `Serve`; an accepted connection
spawns a worker and the loop continues. -/
theorem c9_accept_loop (rest : List AcceptOutcome) (id : Nat)
    (isNet temp : Bool) (e : GoErr) :
    serveLoop (.conn id :: rest) =
      (SEvent.spawn id :: (serveLoop rest).1, (serveLoop rest).2) ∧
    serveLoop (.aerr isNet temp e :: rest) =
      (if isNet && temp then (SEvent.debugDelay :: (serveLoop rest).1, (serveLoop rest).2)
       else ([], some e)) ∧
    serve true (.aerr isNet temp e :: rest) =
      serveLoop (.aerr isNet temp e :: rest) := by
  refine ⟨?_, ?_, by simp [serve]⟩
  · rcases hs : serveLoop rest with ⟨es, rr⟩
    simp [serveLoop, hs]
  · by_cases h : isNet && temp
    · rcases hs : serveLoop rest with ⟨es, rr⟩
      simp [serveLoop, h, hs]
    · simp [serveLoop, h]

/-! ### Receiver lemmas -/

/-- Unrolling one well-formed frame of the receive loop: reading the
header consumes 4 bytes, the callback sees the whole frame body (nil for
a zero-length frame), and the discard step leaves the reader exactly at
the start of the next frame. -/
theorem frameLoop_cons (fd : Int) (b : List Nat) (fds : List Int) (R p : List Nat)
    (cbs : Nat → CbB) (i : Nat) (hp : p.length = 4) (hlt : b.length < 2 ^ 32) :
    frameLoop (fd :: fds) (frame b ++ R) p cbs i =
      (match (cbs i).err with
       | some e => ([obsOf (fd, b)], some (.cb e))
       | none =>
         match frameLoop fds R (le32 b.length) cbs (i + 1) with
         | (os, res) => (obsOf (fd, b) :: os, res)) := by
  have hrest : frame b ++ R = le32 b.length ++ (b ++ R) := by
    simp [frame]
  have hlen : (le32 b.length ++ (b ++ R)).length = 4 + (b.length + R.length) := by
    simp [le32]; omega
  have hk : min 4 (le32 b.length ++ (b ++ R)).length = 4 := by omega
  have htake : (le32 b.length ++ (b ++ R)).take 4 = le32 b.length := by
    conv in (le32 b.length ++ (b ++ R)).take 4 =>
      rw [show (4 : Nat) = (le32 b.length).length from (le32_length b.length).symm]
    exact List.take_left _ _
  have hdrop : (le32 b.length ++ (b ++ R)).drop 4 = b ++ R := by
    conv in (le32 b.length ++ (b ++ R)).drop 4 =>
      rw [show (4 : Nat) = (le32 b.length).length from (le32_length b.length).symm]
    exact List.drop_left _ _
  have hpdrop : p.drop 4 = [] := by
    rw [← hp]; exact List.drop_length p
  have hpres : (b ++ R).take b.length = b := List.take_left b R
  have hob : (if 0 < b.length then some b else none) = (obsOf (fd, b)).meta := by
    cases b <;> simp [obsOf]
  rw [hrest]
  rw [frameLoop]
  rw [if_neg (by omega)]
  simp only [hk, htake, hdrop, hpdrop, List.append_nil, le32dec_le32 b.length hlt,
    hpres, hob]
  cases hcb : (cbs i).err with
  | some e => simp [hcb, obsOf]
  | none =>
    have hsum : min (cbs i).reads b.length + (b.length - min (cbs i).reads b.length) =
        b.length := by omega
    simp only [hcb, hsum, List.drop_left b R, obsOf]

/-- The frame loop over a well-formed batch, with all callbacks
succeeding: one callback per descriptor in order, each shown the full
frame body, with no error. -/
theorem frameLoop_good (batch : List (Int × List Nat)) (rest' p : List Nat)
    (cbs : Nat → CbB) (i : Nat)
    (hcb : ∀ j, (cbs j).err = none)
    (hb : ∀ pr ∈ batch, pr.2.length < 2 ^ 32) (hp : p.length = 4) :
    frameLoop (batch.map Prod.fst) (framesOf batch ++ rest') p cbs i =
      (batch.map obsOf, none) := by
  induction batch generalizing p i with
  | nil => simp [frameLoop, framesOf]
  | cons pr B ih =>
    obtain ⟨fd, b⟩ := pr
    have hblen : b.length < 2 ^ 32 := hb (fd, b) (by simp)
    rw [List.map_cons, framesOf_cons, List.append_assoc]
    rw [frameLoop_cons fd b _ _ p cbs i hp hblen]
    rw [hcb i]
    rw [ih _ _ (fun q hq => hb q (List.mem_cons_of_mem _ hq)) (le32_length b.length)]
    simp

/-- The frame loop over a well-formed batch when the `k`-th callback of
the batch fails: the loop stops right there, having invoked exactly the
first `k+1` callbacks, and returns the callback's error. -/
theorem frameLoop_stop (batch : List (Int × List Nat)) (rest' p : List Nat)
    (cbs : Nat → CbB) (i k : Nat) (e : Nat)
    (hb : ∀ pr ∈ batch, pr.2.length < 2 ^ 32) (hp : p.length = 4)
    (hpre : ∀ j, j < k → (cbs (i + j)).err = none)
    (hk : (cbs (i + k)).err = some e) (hlt : k < batch.length) :
    frameLoop (batch.map Prod.fst) (framesOf batch ++ rest') p cbs i =
      ((batch.take (k + 1)).map obsOf, some (.cb e)) := by
  induction batch generalizing p i k with
  | nil => simp at hlt
  | cons pr B ih =>
    obtain ⟨fd, b⟩ := pr
    have hblen : b.length < 2 ^ 32 := hb (fd, b) (by simp)
    rw [List.map_cons, framesOf_cons, List.append_assoc]
    rw [frameLoop_cons fd b _ _ p cbs i hp hblen]
    cases k with
    | zero =>
      have : (cbs i).err = some e := by simpa using hk
      rw [this]
      simp
    | succ k0 =>
      have h0 : (cbs i).err = none := by simpa using hpre 0 (Nat.succ_pos k0)
      rw [h0]
      have hpre0 : ∀ j, j < k0 → (cbs (i + 1 + j)).err = none := by
        intro j hj
        have := hpre (j + 1) (by omega)
        simpa [Nat.add_assoc, Nat.add_comm 1 j] using this
      have hk0 : (cbs (i + 1 + k0)).err = some e := by
        have := hk
        simpa [Nat.add_assoc, Nat.add_comm 1 k0] using this
      rw [ih _ _ _ (fun q hq => hb q (List.mem_cons_of_mem _ hq)) (le32_length b.length)
        hpre0 hk0 (by simpa using Nat.lt_of_succ_lt_succ hlt)]
      simp

/-- Any error the frame loop itself produces is either the `io.EOF` of a
short header read or an error returned by the callback. -/
theorem frameLoop_err (fds : List Int) (rest p : List Nat) (cbs : Nat → CbB)
    (i : Nat) (e : GoErr)
    (h : (frameLoop fds rest p cbs i).2 = some e) :
    e = .eof ∨ ∃ n, e = .cb n := by
  induction fds generalizing rest p i with
  | nil => simp [frameLoop] at h
  | cons fd fds ih =>
    rw [frameLoop] at h
    by_cases h0 : rest.length = 0
    · rw [if_pos h0] at h
      simp at h
      exact Or.inl h.symm
    · rw [if_neg h0] at h
      cases hcb : (cbs i).err with
      | some e2 =>
        simp only [hcb] at h
        simp at h
        exact Or.inr ⟨e2, h.symm⟩
      | none =>
        simp only [hcb] at h
        rcases hrec : frameLoop fds
            (List.drop (min (cbs i).reads (List.take (le32dec (List.take (min 4 rest.length) rest ++ List.drop (min 4 rest.length) p)) (List.drop (min 4 rest.length) rest)).length +
              ((List.take (le32dec (List.take (min 4 rest.length) rest ++ List.drop (min 4 rest.length) p)) (List.drop (min 4 rest.length) rest)).length -
                min (cbs i).reads (List.take (le32dec (List.take (min 4 rest.length) rest ++ List.drop (min 4 rest.length) p)) (List.drop (min 4 rest.length) rest)).length))
              (List.drop (min 4 rest.length) rest))
            (List.take (min 4 rest.length) rest ++ List.drop (min 4 rest.length) p) cbs (i + 1) with ⟨os, res⟩
        rw [hrec] at h
        simp at h
        exact ih _ _ _ (by rw [hrec, h])

/-- The outcome of the frame loop does not depend on how many bytes each
callback reads from its metadata reader: the discard step always moves
the reader to the end of the current frame before the next header is
read. -/
theorem frameLoop_reads_irrel (fds : List Int) (rest p : List Nat)
    (cbs cbs' : Nat → CbB) (i : Nat)
    (h : ∀ j, (cbs j).err = (cbs' j).err) :
    frameLoop fds rest p cbs i = frameLoop fds rest p cbs' i := by
  induction fds generalizing rest p i with
  | nil => rfl
  | cons fd fds ih =>
    rw [frameLoop, frameLoop]
    by_cases h0 : rest.length = 0
    · simp [h0]
    · rw [if_neg h0, if_neg h0]
      rw [← h i]
      cases hcb : (cbs i).err with
      | some e => simp [hcb]
      | none =>
        have hmin : ∀ (a L : Nat), min a L + (L - min a L) = L := by
          intro a L; omega
        simp only [hcb, hmin]
        rw [ih]

/-- `receive` on the message a flush of a well-formed batch produced,
with all callbacks succeeding. -/
theorem receiveOne_good (msgsize : Nat) (batch : List (Int × List Nat))
    (cbs : Nat → CbB) (i : Nat)
    (hcb : ∀ j, (cbs j).err = none) (hg : GoodBatch msgsize batch)
    (hlt : msgsize < 2 ^ 32) :
    receiveOne msgsize (MsgOf batch) cbs i = (batch.map obsOf, none) := by
  obtain ⟨hne, hlen, hfr⟩ := hg
  have htake : (framesOf batch).take msgsize = framesOf batch :=
    List.take_of_length_le hlen
  have hc0 : ¬ batch.map Prod.fst = [] := by simpa using hne
  have hfl := frameLoop_good batch [] [0, 0, 0, 0] cbs i hcb
    (fun pr hpr => by have := hfr pr hpr; omega) rfl
  rw [List.append_nil] at hfl
  rw [receiveOne]
  simp only [MsgOf, htake]
  rw [if_neg hc0, hfl]

/-- `ReceiveAllFrom` over the messages of a list of well-formed batches,
with all callbacks succeeding: all callbacks fire in order, and the tail
error decides the loop's result — an (possibly `net.OpError`-wrapped)
EOF becomes a nil result, anything else is returned. -/
theorem receiveAll_batches (msgsize : Nat) (batches : List (List (Int × List Nat)))
    (tail : GoErr) (cbs : Nat → CbB) (i : Nat)
    (hcb : ∀ j, (cbs j).err = none) (hg : ∀ B ∈ batches, GoodBatch msgsize B)
    (hlt : msgsize < 2 ^ 32) :
    receiveAll msgsize true (batches.map MsgOf) tail cbs i =
      (batches.flatten.map obsOf, if isEOF tail then none else some tail) := by
  induction batches generalizing i with
  | nil =>
    cases htail : isEOF tail with
    | true => simp [receiveAll, htail]
    | false =>
      have hne : ¬ tail = GoErr.eof := by
        intro h; subst h; simp [isEOF] at htail
      simp [receiveAll, htail, hne]
  | cons B bs ih =>
    rw [List.map_cons, receiveAll]
    simp only [Bool.true_eq_false, if_false]
    rw [receiveOne_good msgsize B cbs i hcb (hg B (by simp)) hlt]
    simp only [ih (i + (B.map obsOf).length)
      (fun B2 hB2 => hg B2 (List.mem_cons_of_mem _ hB2))]
    simp

/-- C10: after the callback for the `N`-th descriptor returns
successfully, the unread remainder of the `N`-th metadata frame is
consumed and discarded before the next 4-byte header is read, so the
parse is independent of how many bytes each callback chose to read
(first conjunct: only the callbacks' errors matter, never their `reads`);
and over a well-formed batch each callback is shown exactly its frame
body, with a zero-length frame presented as an absent (`none`) metadata
reader rather than an empty one (second conjunct, by `obsOf`). -/
theorem c10_frame_boundary (fds : List Int) (rest p : List Nat)
    (cbs cbs' : Nat → CbB) (i : Nat) (batch : List (Int × List Nat))
    (msgsize : Nat) :
    ((∀ j, (cbs j).err = (cbs' j).err) →
      frameLoop fds rest p cbs i = frameLoop fds rest p cbs' i) ∧
    ((∀ j, (cbs j).err = none) → GoodBatch msgsize batch → msgsize < 2 ^ 32 →
      receiveOne msgsize (MsgOf batch) cbs i = (batch.map obsOf, none)) :=
  ⟨frameLoop_reads_irrel fds rest p cbs cbs' i,
   fun hcb hg hlt => receiveOne_good msgsize batch cbs i hcb hg hlt⟩

/-- A callback that reads nothing and never fails. -/
def cbZero : Nat → CbB := fun _ => ⟨0, none⟩

/-- A callback that reads `j + 7` bytes at invocation `j` and never
fails. -/
def cbMore : Nat → CbB := fun j => ⟨j + 7, none⟩

theorem c10_frame_boundary_witness :
    frameLoop [1, 2] [1, 0, 0, 0, 9, 0, 0, 0, 0] [0, 0, 0, 0] cbZero 0 =
      frameLoop [1, 2] [1, 0, 0, 0, 9, 0, 0, 0, 0] [0, 0, 0, 0] cbMore 0 ∧
    receiveOne 64 (MsgOf [((3 : Int), [7])]) cbZero 0 =
      ([((3 : Int), [7])].map obsOf, none) :=
  ⟨(c10_frame_boundary [1, 2] [1, 0, 0, 0, 9, 0, 0, 0, 0] [0, 0, 0, 0]
      cbZero cbMore 0 [((3 : Int), [7])] 64).1 (fun _ => rfl),
   (c10_frame_boundary [1, 2] [1, 0, 0, 0, 9, 0, 0, 0, 0] [0, 0, 0, 0]
      cbZero cbMore 0 [((3 : Int), [7])] 64).2 (fun _ => rfl) (by decide) (by decide)⟩

/-- C7: `ReceiveAllFrom` repeatedly performs the single-receive
operation; when the transport reports orderly peer closure (an EOF,
possibly wrapped in a `net.OpError`) the loop terminates with a nil
result, while any other tail error is returned (first conjunct); and a
single receive failing with any non-EOF error makes the loop return that
error immediately, without touching the remaining messages (second
conjunct). -/
theorem c7_receive_all_eof (msgsize : Nat) (batches : List (List (Int × List Nat)))
    (tail : GoErr) (cbs : Nat → CbB) (i : Nat) (m : Message) (ms : List Message)
    (obs : List Obs) (e : GoErr) :
    ((∀ j, (cbs j).err = none) → (∀ B ∈ batches, GoodBatch msgsize B) →
      msgsize < 2 ^ 32 →
      receiveAll msgsize true (batches.map MsgOf) tail cbs i =
        (batches.flatten.map obsOf, if isEOF tail then none else some tail)) ∧
    (receiveOne msgsize m cbs i = (obs, some e) → ¬ e = .eof →
      receiveAll msgsize true (m :: ms) tail cbs i = (obs, some e)) := by
  constructor
  · intro hcb hg hlt
    exact receiveAll_batches msgsize batches tail cbs i hcb hg hlt
  · intro hone hne
    rw [receiveAll]
    simp only [Bool.true_eq_false, if_false]
    rw [hone]
    simp [hne]

theorem c7_receive_all_eof_witness :
    receiveAll 4096 true ([[((3 : Int), [1])]].map MsgOf) (.opWrap .eof)
        (fun _ => ⟨0, none⟩) 0 =
      ([[((3 : Int), [1])]].flatten.map obsOf,
        if isEOF (.opWrap .eof) then none else some (.opWrap .eof)) ∧
    receiveAll 4096 true [⟨[], []⟩] (.opWrap .eof) (fun _ => ⟨0, none⟩) 0 =
      ([], some .emptyControlMessage) :=
  ⟨(c7_receive_all_eof 4096 [[((3 : Int), [1])]] (.opWrap .eof)
      (fun _ => ⟨0, none⟩) 0 ⟨[], []⟩ [] [] .emptyControlMessage).1
      (fun _ => rfl) (by decide) (by decide),
   (c7_receive_all_eof 4096 [[((3 : Int), [1])]] (.opWrap .eof)
      (fun _ => ⟨0, none⟩) 0 ⟨[], []⟩ [] [] .emptyControlMessage).2
      (by decide) (by decide)⟩

/-- C6: the single-receive operation returns `ErrNotUnixConn` exactly
when the connection is not a Unix-domain stream connection,
`ErrEmptyControlMessage` exactly when the ancillary data parses to zero
control-message entries, `ErrEmptyFileDescriptors` exactly when the
first control-message entry parses to zero descriptors; and when the
`k`-th callback of a well-formed batch returns an error, the operation
stops immediately, having invoked exactly `k + 1` callbacks, and returns
that error. -/
theorem c6_single_receive_errors (msgsize : Nat) (c : Conn) (cbs : Nat → CbB)
    (m : Message) (ms : List Message) (hm : c.msgs = m :: ms) :
    ((receiveFrom msgsize c cbs).2 = some .notUnixConn ↔ c.isUnix = false) ∧
    ((receiveFrom msgsize c cbs).2 = some .emptyControlMessage ↔
      (c.isUnix = true ∧ m.cmsgs = [])) ∧
    ((receiveFrom msgsize c cbs).2 = some .emptyFileDescriptors ↔
      (c.isUnix = true ∧ ∃ cs, m.cmsgs = [] :: cs)) ∧
    (∀ (batch : List (Int × List Nat)) (k e : Nat), c.isUnix = true →
      m = MsgOf batch → GoodBatch msgsize batch → msgsize < 2 ^ 32 →
      (∀ j, j < k → (cbs j).err = none) → (cbs k).err = some e →
      k < batch.length →
      receiveFrom msgsize c cbs = ((batch.take (k + 1)).map obsOf, some (.cb e))) := by
  cases hu : c.isUnix with
  | false =>
    refine ⟨?_, ?_, ?_, ?_⟩
    · simp [receiveFrom, hu]
    · simp [receiveFrom, hu]
    · simp [receiveFrom, hu]
    · intro batch k e hu2
      simp at hu2
  | true =>
    have hrf : receiveFrom msgsize c cbs = receiveOne msgsize m cbs 0 := by
      rw [receiveFrom, hm]
      simp [hu]
    rw [hrf]
    rcases hcm : m.cmsgs with _ | ⟨c0, cs⟩
    · refine ⟨?_, ?_, ?_, ?_⟩
      · simp [receiveOne, hcm, hu]
      · simp [receiveOne, hcm, hu]
      · simp [receiveOne, hcm]
      · intro batch k e _ hmb
        rw [hmb, MsgOf] at hcm
        simp at hcm
    · by_cases hc0 : c0 = []
      · subst hc0
        refine ⟨?_, ?_, ?_, ?_⟩
        · simp [receiveOne, hcm, hu]
        · simp [receiveOne, hcm, hu]
        · simp [receiveOne, hcm, hu]
        · intro batch k e _ hmb hg _ _ _ _
          rw [hmb, MsgOf] at hcm
          simp at hcm
          obtain ⟨hne, _, _⟩ := hg
          exact absurd hcm.1 hne
      · have hone : receiveOne msgsize m cbs 0 =
            frameLoop c0 (m.payload.take msgsize) [0, 0, 0, 0] cbs 0 := by
          rw [receiveOne, hcm]
          simp [hc0]
        refine ⟨?_, ?_, ?_, ?_⟩
        · rw [hone]
          constructor
          · intro h
            rcases frameLoop_err _ _ _ _ _ _ h with h1 | ⟨n, h1⟩ <;> cases h1
          · intro h
            simp at h
        · rw [hone]
          constructor
          · intro h
            rcases frameLoop_err _ _ _ _ _ _ h with h1 | ⟨n, h1⟩ <;> cases h1
          · intro h
            cases h.2
        · rw [hone]
          constructor
          · intro h
            rcases frameLoop_err _ _ _ _ _ _ h with h1 | ⟨n, h1⟩ <;> cases h1
          · intro h
            rcases h.2 with ⟨cs2, hcs2⟩
            simp at hcs2
            exact absurd hcs2.1 hc0
        · intro batch k e _ hmb hg hltm hpre hk hkb
          rw [hone]
          rw [hmb, MsgOf] at hcm
          cases hcm
          obtain ⟨hne, hlen, hfr⟩ := hg
          have hdata : (MsgOf batch).payload.take msgsize = framesOf batch := by
            simpa [MsgOf] using List.take_of_length_le hlen
          rw [hmb, hdata]
          have hstop := frameLoop_stop batch [] [0, 0, 0, 0] cbs 0 k e
            (fun pr hpr => by have := hfr pr hpr; omega) rfl
            (fun j hj => by simpa using hpre j hj) (by simpa using hk) hkb
          rw [List.append_nil] at hstop
          exact hstop

/-- A callback that fails (with user error 42) at its second
invocation. -/
def cbFailAt1 : Nat → CbB := fun j => if j = 1 then ⟨0, some 42⟩ else ⟨0, none⟩

theorem c6_single_receive_errors_witness :
    receiveFrom 64
        ⟨true, [MsgOf [((3 : Int), [1]), ((4 : Int), [2])]], .opWrap .eof⟩
        cbFailAt1 =
      (([((3 : Int), [1]), ((4 : Int), [2])].take 2).map obsOf, some (.cb 42)) :=
  (c6_single_receive_errors 64
      ⟨true, [MsgOf [((3 : Int), [1]), ((4 : Int), [2])]], .opWrap .eof⟩
      cbFailAt1 (MsgOf [((3 : Int), [1]), ((4 : Int), [2])]) [] rfl).2.2.2
    [((3 : Int), [1]), ((4 : Int), [2])] 1 42 rfl rfl (by decide) (by decide)
    (fun j hj => by
      have hj0 : j = 0 := by omega
      subst hj0
      rfl)
    rfl (by decide)

/-! ### Sender lemmas -/

theorem frame_length (b : List Nat) : (frame b).length = 4 + b.length := by
  simp [frame, le32]
  omega

theorem framesOf_singleton (fd : Int) (b : List Nat) :
    framesOf [(fd, b)] = frame b := by
  simp [framesOf]

/-- What one successful `response.Write` does to a buffer holding the
frames of `batch`: the frame of the (normalised) metadata and the
descriptor are appended, either to the current batch, or — after exactly
one implicit flush that seals the nonempty current batch into a wire
message — to the emptied buffer. -/
def StepConc (r : Resp) (batch : List (Int × List Nat)) (fd : Int)
    (b : List Nat) (o : WriteOut) : Prop :=
  o.r.msgn = r.msgn ∧ o.r.fdcap = r.fdcap ∧ b.length + 4 ≤ r.msgn ∧
    ((o.msgs = [] ∧ BatchState o.r (batch ++ [(fd, b)])) ∨
     (batch ≠ [] ∧ o.msgs = [MsgOf batch] ∧ BatchState o.r [(fd, b)]))

theorem step_nil (r : Resp) (batch : List (Int × List Nat)) (fd : Int)
    (hbs : BatchState r batch)
    (hok : (respWrite r fd none none false).res = none) :
    StepConc r batch fd [] (respWrite r fd none none false) := by
  obtain ⟨hpay, hfds, herr, hlen, hcap, hfr⟩ := hbs
  have hfl : r.fds.length = batch.length := by rw [hfds]; simp
  have main : writeIterNil r fd = none →
      StepConc r batch fd [] (respWrite r fd none none false) := by
    intro hw1
    have hstep1 : respWrite r fd none none false = flushThenNil r fd none false := by
      simp [respWrite, herr, hw1]
    have hne0 : ¬ r.fds.length = 0 := by
      intro h0
      have hx : flushThenNil r fd none false = ⟨r, [], some .longWrite, 1⟩ := by
        simp [flushThenNil, Resp.flushWith, herr, h0, hw1]
      rw [hstep1, hx] at hok
      cases hok
    have hbne : batch ≠ [] := by
      intro h0; rw [h0] at hfl; simp at hfl; exact hne0 (by simp [hfl])
    have hfw : r.flushWith none false =
        (⟨r.msgn, r.fdcap, [], [], none⟩, some ⟨r.payload, [r.fds]⟩, none) := by
      simp [Resp.flushWith, herr, hne0]
    by_cases hcap1 : (0 : Nat) = r.fdcap
    · exfalso
      have hx : flushThenNil r fd none false =
          ⟨⟨r.msgn, r.fdcap, [], [], none⟩, [⟨r.payload, [r.fds]⟩],
            some .longWrite, 1⟩ := by
        simp [flushThenNil, hfw, writeIterNil, ← hcap1]
      rw [hstep1, hx] at hok
      cases hok
    · by_cases hroom1 : r.msgn < 4
      · exfalso
        have hx : flushThenNil r fd none false =
            ⟨⟨r.msgn, r.fdcap, [], [], none⟩, [⟨r.payload, [r.fds]⟩],
              some .longWrite, 1⟩ := by
          simp [flushThenNil, hfw, writeIterNil, msgHeaderSize, hcap1, hroom1]
        rw [hstep1, hx] at hok
        cases hok
      · have hx : flushThenNil r fd none false =
            ⟨⟨r.msgn, r.fdcap, zeroHeader, [fd], none⟩, [⟨r.payload, [r.fds]⟩],
              none, 1⟩ := by
          simp [flushThenNil, hfw, writeIterNil, Resp.appendZero, msgHeaderSize,
            hcap1, hroom1]
        rw [hstep1, hx]
        refine ⟨rfl, rfl, by simp only [List.length_nil]; omega, Or.inr ⟨hbne, ?_, ?_⟩⟩
        · simp [MsgOf, hpay, hfds]
        · refine ⟨?_, ?_, rfl, ?_, ?_, ?_⟩
          · simp [framesOf_singleton, frame_nil]
          · simp
          · simp [zeroHeader]; omega
          · simp; omega
          · intro pr hpr
            simp at hpr
            subst hpr
            simp
            omega
  by_cases hfull : r.fds.length = r.fdcap
  · exact main (by simp [writeIterNil, hfull])
  · by_cases hroom : r.msgn - r.payload.length < 4
    · exact main (by simp [writeIterNil, msgHeaderSize, hfull, hroom])
    · have hw : respWrite r fd none none false = ⟨r.appendZero fd, [], none, 0⟩ := by
        simp [respWrite, writeIterNil, msgHeaderSize, herr, hfull, hroom]
      rw [hw]
      refine ⟨rfl, rfl, by simp only [List.length_nil]; omega,
        Or.inl ⟨rfl, ?_, ?_, ?_, ?_, ?_, ?_⟩⟩
      · simp [Resp.appendZero, framesOf_append, framesOf_singleton, frame_nil, hpay]
      · simp [Resp.appendZero, hfds]
      · simp [Resp.appendZero, herr]
      · simp [Resp.appendZero, zeroHeader]
        omega
      · simp [Resp.appendZero]
        omega
      · intro pr hpr
        simp [Resp.appendZero]
        rcases List.mem_append.mp hpr with h | h
        · exact hfr pr h
        · simp at h
          subst h
          simp
          omega

/-- A blocked iteration of the `Write` loop: descriptor list full or no
room for a header means `goto flush`. -/
theorem writeIterSome_blocked (s : Resp) (fd : Int) (m : WriterTo)
    (mb : Option (List Nat)) (mc : Bool)
    (h : s.fds.length = s.fdcap ∨ s.msgn - s.payload.length < 4) :
    writeIterSome s fd m mb mc = .flushReq mb mc := by
  by_cases hA : s.fds.length = s.fdcap
  · simp [writeIterSome, hA]
  · rcases h with h | h
    · exact absurd h hA
    · simp [writeIterSome, msgHeaderSize, hA, h]

/-- An unblocked iteration with `metaBytes` already captured appends the
header and (possibly copied) metadata bytes. -/
theorem writeIterSome_mb (s : Resp) (fd : Int) (m : WriterTo) (mbv : List Nat)
    (mc : Bool) (hA : ¬ s.fds.length = s.fdcap)
    (hB : ¬ s.msgn - s.payload.length < 4) :
    writeIterSome s fd m (some mbv) mc = .ok (s.appendMeta fd mbv mc) := by
  simp [writeIterSome, msgHeaderSize, hA, hB]

theorem writeToSim_single_reject (N : Int) (b : List Nat)
    (h : N ≤ 0 ∨ N < (b.length : Int)) :
    writeToSim N ⟨[b], none⟩ = ⟨[], 0, some .longWrite, false⟩ := by
  simp [writeToSim, writeChunks, h]

theorem writeToSim_single_ok (N : Int) (b : List Nat)
    (h : ¬ (N ≤ 0 ∨ N < (b.length : Int))) :
    writeToSim N ⟨[b], none⟩ = ⟨b, b.length, none, false⟩ := by
  simp only [writeToSim, writeChunks, if_neg h]
  simp

/-- An unblocked iteration whose one-chunk metadata is rejected by the
limiter (`len(p) > N`, with `N = len(buf) - 4`). -/
theorem writeIterSome_fail (s : Resp) (fd : Int) (b : List Nat)
    (hA : ¬ s.fds.length = s.fdcap) (hB : ¬ s.msgn - s.payload.length < 4)
    (hrej : s.msgn < b.length + 4) :
    writeIterSome s fd ⟨[b], none⟩ none false = .fail .longWrite := by
  have hws : writeToSim ((s.msgn : Int) - 4) ⟨[b], none⟩ =
      ⟨[], 0, some .longWrite, false⟩ :=
    writeToSim_single_reject _ _ (by omega)
  simp [writeIterSome, msgHeaderSize, hA, hB, hws]

/-- An unblocked iteration whose one-chunk metadata passes the limiter
and fits in the remaining space: written in place. -/
theorem writeIterSome_inplace (s : Resp) (fd : Int) (b : List Nat)
    (hA : ¬ s.fds.length = s.fdcap) (hB : ¬ s.msgn - s.payload.length < 4)
    (hb1 : 1 ≤ b.length) (hfit : b.length + 4 ≤ s.msgn)
    (hcap : ¬ s.msgn - s.payload.length - 4 < b.length) :
    writeIterSome s fd ⟨[b], none⟩ none false = .ok (s.appendMeta fd b false) := by
  have hws : writeToSim ((s.msgn : Int) - 4) ⟨[b], none⟩ =
      ⟨b, b.length, none, false⟩ :=
    writeToSim_single_ok _ _ (by omega)
  have hne : ¬ b.length = 0 := by omega
  simp [writeIterSome, msgHeaderSize, hA, hB, hws, hne, hcap]

/-- An unblocked iteration whose one-chunk metadata passes the limiter
but does not fit in the remaining space: the `bytes.Buffer` reallocates
and (when the aliased slice is nonempty) the write is retried after a
flush with `mustCopy` set. -/
theorem writeIterSome_realloc (s : Resp) (fd : Int) (b : List Nat)
    (hA : ¬ s.fds.length = s.fdcap) (hB : ¬ s.msgn - s.payload.length < 4)
    (hb1 : 1 ≤ b.length) (hfit : b.length + 4 ≤ s.msgn)
    (hcap : s.msgn - s.payload.length - 4 < b.length)
    (hc0 : ¬ s.msgn - s.payload.length - 4 = 0) :
    writeIterSome s fd ⟨[b], none⟩ none false = .flushReq (some b) true := by
  have hws : writeToSim ((s.msgn : Int) - 4) ⟨[b], none⟩ =
      ⟨b, b.length, none, false⟩ :=
    writeToSim_single_ok _ _ (by omega)
  have hne : ¬ b.length = 0 := by omega
  simp [writeIterSome, msgHeaderSize, hA, hB, hws, hne, hcap, hc0]

/-- An unblocked iteration with an empty metadata source: the `WriteTo`
writes zero bytes, so the loop continues with `meta = nil`. -/
theorem writeIterSome_empty (s : Resp) (fd : Int)
    (hA : ¬ s.fds.length = s.fdcap) (hB : ¬ s.msgn - s.payload.length < 4) :
    writeIterSome s fd ⟨[], none⟩ none false = .again := by
  simp [writeIterSome, msgHeaderSize, hA, hB, writeToSim, writeChunks]

theorem step_empty (r : Resp) (batch : List (Int × List Nat)) (fd : Int)
    (hbs : BatchState r batch)
    (hok : (respWrite r fd (some ⟨[], none⟩) none false).res = none) :
    StepConc r batch fd [] (respWrite r fd (some ⟨[], none⟩) none false) := by
  obtain ⟨hpay, hfds, herr, hlen, hcap, hfr⟩ := hbs
  have hfl : r.fds.length = batch.length := by rw [hfds]; simp
  have main : (r.fds.length = r.fdcap ∨ r.msgn - r.payload.length < 4) →
      StepConc r batch fd [] (respWrite r fd (some ⟨[], none⟩) none false) := by
    intro hblk
    have hw1 : writeIterSome r fd ⟨[], none⟩ none false = .flushReq none false :=
      writeIterSome_blocked r fd _ none false hblk
    have hstep1 : respWrite r fd (some ⟨[], none⟩) none false =
        flushThenSome r fd ⟨[], none⟩ none false none false := by
      simp [respWrite, herr, hw1]
    have hne0 : ¬ r.fds.length = 0 := by
      intro h0
      have hx : flushThenSome r fd ⟨[], none⟩ none false none false =
          ⟨r, [], some .longWrite, 1⟩ := by
        simp [flushThenSome, Resp.flushWith, herr, h0, hw1]
      rw [hstep1, hx] at hok
      cases hok
    have hbne : batch ≠ [] := by
      intro h0; rw [h0] at hfl; simp at hfl; exact hne0 (by simp [hfl])
    have hfw : r.flushWith none false =
        (⟨r.msgn, r.fdcap, [], [], none⟩, some ⟨r.payload, [r.fds]⟩, none) := by
      simp [Resp.flushWith, herr, hne0]
    by_cases hcap1 : (0 : Nat) = r.fdcap
    · exfalso
      have hw2 : writeIterSome ⟨r.msgn, r.fdcap, [], [], none⟩ fd
          ⟨[], none⟩ none false = .flushReq none false :=
        writeIterSome_blocked _ fd _ none false (Or.inl (by simpa using hcap1))
      have hx : flushThenSome r fd ⟨[], none⟩ none false none false =
          ⟨⟨r.msgn, r.fdcap, [], [], none⟩, [⟨r.payload, [r.fds]⟩],
            some .longWrite, 1⟩ := by
        simp [flushThenSome, hfw, hw2]
      rw [hstep1, hx] at hok
      cases hok
    · by_cases hroom1 : r.msgn < 4
      · exfalso
        have hw2 : writeIterSome ⟨r.msgn, r.fdcap, [], [], none⟩ fd
            ⟨[], none⟩ none false = .flushReq none false :=
          writeIterSome_blocked _ fd _ none false (Or.inr (by simpa using hroom1))
        have hx : flushThenSome r fd ⟨[], none⟩ none false none false =
            ⟨⟨r.msgn, r.fdcap, [], [], none⟩, [⟨r.payload, [r.fds]⟩],
              some .longWrite, 1⟩ := by
          simp [flushThenSome, hfw, hw2]
        rw [hstep1, hx] at hok
        cases hok
      · have hw2 : writeIterSome ⟨r.msgn, r.fdcap, [], [], none⟩ fd
            ⟨[], none⟩ none false = .again :=
          writeIterSome_empty _ fd (by simpa using hcap1) (by simpa using hroom1)
        have hx : flushThenSome r fd ⟨[], none⟩ none false none false =
            ⟨⟨r.msgn, r.fdcap, zeroHeader, [fd], none⟩, [⟨r.payload, [r.fds]⟩],
              none, 1⟩ := by
          simp [flushThenSome, hfw, hw2, writeIterNil, Resp.appendZero,
            msgHeaderSize, hcap1, hroom1]
        rw [hstep1, hx]
        refine ⟨rfl, rfl, by simp only [List.length_nil]; omega, Or.inr ⟨hbne, ?_, ?_⟩⟩
        · simp [MsgOf, hpay, hfds]
        · refine ⟨?_, ?_, rfl, ?_, ?_, ?_⟩
          · simp [framesOf_singleton, frame_nil]
          · simp
          · simp [zeroHeader]; omega
          · simp; omega
          · intro pr hpr
            simp at hpr
            subst hpr
            simp
            omega
  by_cases hfull : r.fds.length = r.fdcap
  · exact main (Or.inl hfull)
  · by_cases hroom : r.msgn - r.payload.length < 4
    · exact main (Or.inr hroom)
    · have hw1 : writeIterSome r fd ⟨[], none⟩ none false = .again :=
        writeIterSome_empty r fd hfull hroom
      have hw : respWrite r fd (some ⟨[], none⟩) none false =
          ⟨r.appendZero fd, [], none, 0⟩ := by
        simp [respWrite, herr, hw1, writeIterNil, msgHeaderSize, hfull, hroom]
      rw [hw]
      refine ⟨rfl, rfl, by simp only [List.length_nil]; omega,
        Or.inl ⟨rfl, ?_, ?_, ?_, ?_, ?_, ?_⟩⟩
      · simp [Resp.appendZero, framesOf_append, framesOf_singleton, frame_nil, hpay]
      · simp [Resp.appendZero, hfds]
      · simp [Resp.appendZero, herr]
      · simp [Resp.appendZero, zeroHeader]
        omega
      · simp [Resp.appendZero]
        omega
      · intro pr hpr
        simp [Resp.appendZero]
        rcases List.mem_append.mp hpr with h | h
        · exact hfr pr h
        · simp at h
          subst h
          simp
          omega

theorem appendMeta_fresh (msgn fdcap : Nat) (fd : Int) (b : List Nat) (mc : Bool)
    (h : b.length ≤ msgn - 4) :
    (⟨msgn, fdcap, [], [], none⟩ : Resp).appendMeta fd b mc =
      ⟨msgn, fdcap, frame b, [fd], none⟩ := by
  cases mc with
  | false => simp [Resp.appendMeta, frame]
  | true =>
    simp [Resp.appendMeta, frame, le32]
    exact h

theorem step_bytes_blocked (r : Resp) (batch : List (Int × List Nat)) (fd : Int)
    (b : List Nat) (hb : b ≠ [])
    (hpay : r.payload = framesOf batch) (hfds : r.fds = batch.map Prod.fst)
    (herr : r.err = none) (hlen : r.payload.length ≤ r.msgn)
    (hcap : batch.length ≤ r.fdcap)
    (hfr : ∀ pr ∈ batch, pr.2.length + 4 ≤ r.msgn)
    (hfl : r.fds.length = batch.length) (hb1 : 1 ≤ b.length)
    (hblk : r.fds.length = r.fdcap ∨ r.msgn - r.payload.length < 4)
    (hok : (respWrite r fd (some ⟨[b], none⟩) none false).res = none) :
    StepConc r batch fd b (respWrite r fd (some ⟨[b], none⟩) none false) := by
  have hw1 : writeIterSome r fd ⟨[b], none⟩ none false = .flushReq none false :=
    writeIterSome_blocked r fd _ none false hblk
  have hstep1 : respWrite r fd (some ⟨[b], none⟩) none false =
      flushThenSome r fd ⟨[b], none⟩ none false none false := by
    simp [respWrite, herr, hw1]
  have hne0 : ¬ r.fds.length = 0 := by
    intro h0
    have hx : flushThenSome r fd ⟨[b], none⟩ none false none false =
        ⟨r, [], some .longWrite, 1⟩ := by
      simp [flushThenSome, Resp.flushWith, herr, h0, hw1]
    rw [hstep1, hx] at hok
    cases hok
  have hbne : batch ≠ [] := by
    intro h0; rw [h0] at hfl; simp at hfl; exact hne0 (by simp [hfl])
  have hfw : r.flushWith none false =
      (⟨r.msgn, r.fdcap, [], [], none⟩, some ⟨r.payload, [r.fds]⟩, none) := by
    simp [Resp.flushWith, herr, hne0]
  by_cases hcap1 : (0 : Nat) = r.fdcap
  · exfalso
    have hw2 : writeIterSome ⟨r.msgn, r.fdcap, [], [], none⟩ fd
        ⟨[b], none⟩ none false = .flushReq none false :=
      writeIterSome_blocked _ fd _ none false (Or.inl (by simpa using hcap1))
    have hx : flushThenSome r fd ⟨[b], none⟩ none false none false =
        ⟨⟨r.msgn, r.fdcap, [], [], none⟩, [⟨r.payload, [r.fds]⟩],
          some .longWrite, 1⟩ := by
      simp [flushThenSome, hfw, hw2]
    rw [hstep1, hx] at hok
    cases hok
  · by_cases hroom1 : r.msgn < 4
    · exfalso
      have hw2 : writeIterSome ⟨r.msgn, r.fdcap, [], [], none⟩ fd
          ⟨[b], none⟩ none false = .flushReq none false :=
        writeIterSome_blocked _ fd _ none false (Or.inr (by simpa using hroom1))
      have hx : flushThenSome r fd ⟨[b], none⟩ none false none false =
          ⟨⟨r.msgn, r.fdcap, [], [], none⟩, [⟨r.payload, [r.fds]⟩],
            some .longWrite, 1⟩ := by
        simp [flushThenSome, hfw, hw2]
      rw [hstep1, hx] at hok
      cases hok
    · by_cases hrej : r.msgn < b.length + 4
      · exfalso
        have hw2 : writeIterSome ⟨r.msgn, r.fdcap, [], [], none⟩ fd
            ⟨[b], none⟩ none false = .fail .longWrite :=
          writeIterSome_fail _ fd b (by simpa using hcap1) (by simp; omega)
            (by simpa using hrej)
        have hx : flushThenSome r fd ⟨[b], none⟩ none false none false =
            ⟨⟨r.msgn, r.fdcap, [], [], none⟩, [⟨r.payload, [r.fds]⟩],
              some .longWrite, 1⟩ := by
          simp [flushThenSome, hfw, hw2]
        rw [hstep1, hx] at hok
        cases hok
      · have hfit : b.length + 4 ≤ r.msgn := by omega
        have hw2 : writeIterSome ⟨r.msgn, r.fdcap, [], [], none⟩ fd
            ⟨[b], none⟩ none false =
            .ok ((⟨r.msgn, r.fdcap, [], [], none⟩ : Resp).appendMeta fd b false) :=
          writeIterSome_inplace _ fd b (by simpa using hcap1) (by simp; omega)
            hb1 (by simpa using hfit) (by simp; omega)
        have hx : respWrite r fd (some ⟨[b], none⟩) none false =
            ⟨⟨r.msgn, r.fdcap, frame b, [fd], none⟩, [⟨r.payload, [r.fds]⟩],
              none, 1⟩ := by
          rw [hstep1]
          simp only [flushThenSome, hfw, hw2]
          rw [appendMeta_fresh r.msgn r.fdcap fd b false (by omega)]
          simp
        rw [hx]
        refine ⟨rfl, rfl, hfit, Or.inr ⟨hbne, ?_, ?_⟩⟩
        · simp [MsgOf, hpay, hfds]
        · refine ⟨?_, ?_, rfl, ?_, ?_, ?_⟩
          · simp [framesOf_singleton]
          · simp
          · simp [frame_length]
            omega
          · simp
            omega
          · intro pr hpr
            simp at hpr
            subst hpr
            simpa using hfit

theorem step_bytes (r : Resp) (batch : List (Int × List Nat)) (fd : Int)
    (b : List Nat) (hb : b ≠ []) (hbs : BatchState r batch)
    (hok : (respWrite r fd (some ⟨[b], none⟩) none false).res = none) :
    StepConc r batch fd b (respWrite r fd (some ⟨[b], none⟩) none false) := by
  obtain ⟨hpay, hfds, herr, hlen, hcap, hfr⟩ := hbs
  have hfl : r.fds.length = batch.length := by rw [hfds]; simp
  have hb1 : 1 ≤ b.length := List.length_pos.mpr hb
  by_cases hfull : r.fds.length = r.fdcap
  · exact step_bytes_blocked r batch fd b hb hpay hfds herr hlen hcap hfr hfl hb1
      (Or.inl hfull) hok
  · by_cases hroom : r.msgn - r.payload.length < 4
    · exact step_bytes_blocked r batch fd b hb hpay hfds herr hlen hcap hfr hfl hb1
        (Or.inr hroom) hok
    · by_cases hrej : r.msgn < b.length + 4
      · exfalso
        have hw1 := writeIterSome_fail r fd b hfull hroom hrej
        have hx : respWrite r fd (some ⟨[b], none⟩) none false =
            ⟨r, [], some .longWrite, 0⟩ := by
          simp [respWrite, herr, hw1]
        rw [hx] at hok
        cases hok
      · have hfit : b.length + 4 ≤ r.msgn := by omega
        by_cases hcap0 : r.msgn - r.payload.length - 4 < b.length
        · -- reallocation: flush, then copy into the emptied buffer
          by_cases hc0 : r.msgn - r.payload.length - 4 = 0
          · exfalso
            have hw1 : writeIterSome r fd ⟨[b], none⟩ none false = .fail .panicked := by
              have hws : writeToSim ((r.msgn : Int) - 4) ⟨[b], none⟩ =
                  ⟨b, b.length, none, false⟩ :=
                writeToSim_single_ok _ _ (by omega)
              have hne : ¬ b.length = 0 := by omega
              simp [writeIterSome, msgHeaderSize, hfull, hroom, hws, hne, hcap0, hc0]
            have hx : respWrite r fd (some ⟨[b], none⟩) none false =
                ⟨r, [], some .panicked, 0⟩ := by
              simp [respWrite, herr, hw1]
            rw [hx] at hok
            cases hok
          · have hw1 := writeIterSome_realloc r fd b hfull hroom hb1 hfit hcap0 hc0
            have hne0 : ¬ r.fds.length = 0 := by
              intro h0
              have hb0 : batch = [] := by
                rw [hfl] at h0; exact List.length_eq_zero.mp h0
              rw [hb0] at hpay
              simp [framesOf] at hpay
              rw [hpay] at hcap0
              simp at hcap0
              omega
            have hbne : batch ≠ [] := by
              intro h0; rw [h0] at hfl; simp at hfl; exact hne0 (by simp [hfl])
            have hfw : r.flushWith none false =
                (⟨r.msgn, r.fdcap, [], [], none⟩, some ⟨r.payload, [r.fds]⟩, none) := by
              simp [Resp.flushWith, herr, hne0]
            have hcap1 : ¬ (0 : Nat) = r.fdcap := by
              intro h0
              rw [hfl] at hne0
              omega
            have hroom1 : ¬ (⟨r.msgn, r.fdcap, [], [], none⟩ : Resp).msgn -
                (⟨r.msgn, r.fdcap, [], [], none⟩ : Resp).payload.length < 4 := by
              simp
              omega
            have hw2 : writeIterSome ⟨r.msgn, r.fdcap, [], [], none⟩ fd
                ⟨[b], none⟩ (some b) true =
                .ok ((⟨r.msgn, r.fdcap, [], [], none⟩ : Resp).appendMeta fd b true) :=
              writeIterSome_mb _ fd _ b true (by simpa using hcap1) hroom1
            have hx : respWrite r fd (some ⟨[b], none⟩) none false =
                ⟨⟨r.msgn, r.fdcap, frame b, [fd], none⟩, [⟨r.payload, [r.fds]⟩],
                  none, 1⟩ := by
              rw [respWrite]
              simp only [herr]
              rw [hw1]
              simp only [flushThenSome, hfw, hw2]
              rw [appendMeta_fresh r.msgn r.fdcap fd b true (by omega)]
              simp
            rw [hx]
            refine ⟨rfl, rfl, hfit, Or.inr ⟨hbne, ?_, ?_⟩⟩
            · simp [MsgOf, hpay, hfds]
            · refine ⟨?_, ?_, rfl, ?_, ?_, ?_⟩
              · simp [framesOf_singleton]
              · simp
              · simp [frame_length]
                omega
              · simp
                omega
              · intro pr hpr
                simp at hpr
                subst hpr
                simpa using hfit
        · -- fits in place
          have hw1 := writeIterSome_inplace r fd b hfull hroom hb1 hfit hcap0
          have hx : respWrite r fd (some ⟨[b], none⟩) none false =
              ⟨r.appendMeta fd b false, [], none, 0⟩ := by
            simp [respWrite, herr, hw1]
          rw [hx]
          refine ⟨rfl, rfl, hfit, Or.inl ⟨rfl, ?_, ?_, ?_, ?_, ?_, ?_⟩⟩
          · simp [Resp.appendMeta, framesOf_append, framesOf_singleton, frame, hpay]
          · simp [Resp.appendMeta, hfds]
          · simp [Resp.appendMeta, herr]
          · simp [Resp.appendMeta, le32]
            omega
          · simp [Resp.appendMeta]
            omega
          · intro pr hpr
            simp [Resp.appendMeta]
            rcases List.mem_append.mp hpr with h | h
            · exact hfr pr h
            · simp at h
              subst h
              simpa using hfit

/-- One successful `response.Write` against a buffer in batch state:
dispatch over the three metadata shapes. -/
theorem respWrite_step (r : Resp) (batch : List (Int × List Nat)) (fd : Int)
    (mo : Option (List Nat)) (hbs : BatchState r batch)
    (hok : (respWrite r fd (mo.map bytesWT) none false).res = none) :
    StepConc r batch fd (mo.getD []) (respWrite r fd (mo.map bytesWT) none false) := by
  cases mo with
  | none => simpa using step_nil r batch fd hbs (by simpa using hok)
  | some b =>
    by_cases hb : b = []
    · subst hb
      have hway : Option.map bytesWT (some ([] : List Nat)) =
          some (⟨[], none⟩ : WriterTo) := by
        simp [bytesWT]
      rw [hway] at hok ⊢
      simpa using step_empty r batch fd hbs hok
    · have hway : Option.map bytesWT (some b) = some (⟨[b], none⟩ : WriterTo) := by
        simp [bytesWT, hb]
      rw [hway] at hok ⊢
      simpa using step_bytes r batch fd b hb hbs hok

/-- Driving a sequence of successful writes: the emitted messages are
the flushes of complete, well-formed batches, and the concatenation of
those batches plus the still-buffered one is exactly the (normalised)
written sequence. -/
theorem sendAll_spec (ws : List (Int × Option (List Nat))) (r : Resp)
    (batch : List (Int × List Nat)) (rf : Resp) (ms : List Message)
    (hbs : BatchState r batch) (hsa : sendAll r ws = some (rf, ms)) :
    ∃ (bs : List (List (Int × List Nat))) (lastB : List (Int × List Nat)),
      ms = bs.map MsgOf ∧ BatchState rf lastB ∧
      rf.msgn = r.msgn ∧ rf.fdcap = r.fdcap ∧
      (∀ B ∈ bs, GoodBatch r.msgn B) ∧
      batch ++ normWs ws = bs.flatten ++ lastB := by
  induction ws generalizing r batch ms with
  | nil =>
    simp [sendAll] at hsa
    refine ⟨[], batch, ?_, ?_, ?_, ?_, ?_, ?_⟩
    · simp [hsa.2.symm]
    · exact hsa.1 ▸ hbs
    · rw [hsa.1]
    · rw [hsa.1]
    · simp
    · simp [normWs]
  | cons w rest ih =>
    obtain ⟨fd, mo⟩ := w
    rw [sendAll] at hsa
    rcases hres : (respWrite r fd (mo.map bytesWT) none false).res with _ | e
    case some => rw [hres] at hsa; simp at hsa
    rw [hres] at hsa
    rcases hrec : sendAll (respWrite r fd (mo.map bytesWT) none false).r rest with
      _ | ⟨rf2, ms2⟩
    case none => rw [hrec] at hsa; simp at hsa
    rw [hrec] at hsa
    simp only [Option.some.injEq, Prod.mk.injEq] at hsa
    obtain ⟨hrf2, hms⟩ := hsa
    subst hrf2
    obtain ⟨hpay, hfds, herr, hlen, hcap, hfr⟩ := hbs
    have hstep := respWrite_step r batch fd mo
      ⟨hpay, hfds, herr, hlen, hcap, hfr⟩ hres
    obtain ⟨hmsgn, hfdcap, hblen, hsplit⟩ := hstep
    have hnw : normWs ((fd, mo) :: rest) = (fd, mo.getD []) :: normWs rest := by
      simp [normWs]
    rcases hsplit with ⟨hms0, hbs1⟩ | ⟨hbne, hms0, hbs1⟩
    · obtain ⟨bs, lastB, h1, h2, h3, h4, h5, h6⟩ := ih _ _ _ hbs1 hrec
      refine ⟨bs, lastB, ?_, h2, ?_, ?_, ?_, ?_⟩
      · rw [← hms, hms0, h1]
        simp
      · rw [h3, hmsgn]
      · rw [h4, hfdcap]
      · intro B hB
        have := h5 B hB
        rwa [hmsgn] at this
      · rw [hnw]
        have : batch ++ (fd, mo.getD []) :: normWs rest =
            (batch ++ [(fd, mo.getD [])]) ++ normWs rest := by
          simp
        rw [this, h6]
    · obtain ⟨bs, lastB, h1, h2, h3, h4, h5, h6⟩ := ih _ _ _ hbs1 hrec
      refine ⟨batch :: bs, lastB, ?_, h2, ?_, ?_, ?_, ?_⟩
      · rw [← hms, hms0, h1]
        simp
      · rw [h3, hmsgn]
      · rw [h4, hfdcap]
      · intro B hB
        rcases List.mem_cons.mp hB with hB | hB
        · subst hB
          exact ⟨hbne, hpay ▸ hlen, hfr⟩
        · have := h5 B hB
          rwa [hmsgn] at this
      · rw [hnw]
        have hassoc : batch ++ (fd, mo.getD []) :: normWs rest =
            batch ++ ([(fd, mo.getD [])] ++ normWs rest) := by
          simp
        rw [hassoc, h6]
        simp [List.append_assoc]

/-- Writing a sequence of pairs and flushing: the wire carries the
well-formed batches whose concatenation is the written sequence. -/
theorem sendAndFlush_spec (msgn oobn : Nat) (ws : List (Int × Option (List Nat)))
    (rf : Resp) (ms : List Message)
    (h : sendAndFlush (newResponse msgn oobn) ws = some (rf, ms)) :
    ∃ bs : List (List (Int × List Nat)),
      ms = bs.map MsgOf ∧ (∀ B ∈ bs, GoodBatch msgn B) ∧
      bs.flatten = normWs ws := by
  rw [sendAndFlush] at h
  rcases hsa : sendAll (newResponse msgn oobn) ws with _ | ⟨rf0, ms0⟩
  case none => rw [hsa] at h; simp at h
  rw [hsa] at h
  dsimp only at h
  have hbs0 : BatchState (newResponse msgn oobn) [] := by
    refine ⟨rfl, rfl, rfl, by simp [newResponse], by simp, by simp⟩
  obtain ⟨bs, lastB, h1, h2, h3, h4, h5, h6⟩ :=
    sendAll_spec ws (newResponse msgn oobn) [] rf0 ms0 hbs0 hsa
  simp only [newResponse] at h3 h5
  obtain ⟨hpay, hfds, herr, hlen, hcap, hfr⟩ := h2
  simp only [List.nil_append] at h6
  by_cases hlast : lastB = []
  · subst hlast
    have hfds0 : rf0.fds.length = 0 := by rw [hfds]; simp
    have hfl : rf0.flushWith none false = (rf0, none, none) := by
      simp [Resp.flushWith, herr, hfds0]
    rw [hfl] at h
    simp at h
    refine ⟨bs, ?_, ?_, ?_⟩
    · rw [← h.2, h1]
    · intro B hB
      exact h5 B hB
    · rw [h6]
      simp
  · have hfds0 : ¬ rf0.fds.length = 0 := by
      rw [hfds]
      simpa using hlast
    have hfl : rf0.flushWith none false =
        (⟨rf0.msgn, rf0.fdcap, [], [], none⟩, some ⟨rf0.payload, [rf0.fds]⟩,
          none) := by
      simp [Resp.flushWith, herr, hfds0]
    rw [hfl] at h
    simp at h
    refine ⟨bs ++ [lastB], ?_, ?_, ?_⟩
    · rw [← h.2, h1]
      simp [MsgOf, hpay, hfds]
    · intro B hB
      rcases List.mem_append.mp hB with hB | hB
      · exact h5 B hB
      · simp at hB
        subst hB
        refine ⟨hlast, ?_, ?_⟩
        · rw [← hpay]
          rw [h3] at hlen
          exact hlen
        · intro pr hpr
          have := hfr pr hpr
          rwa [h3] at this
    · rw [List.flatten_append, h6]
      simp

/-- C1: for every sequence of (descriptor, metadata) pairs written
through the Outbound Buffer via `response.Write` (all writes succeeding,
ideal transport) and flushed, a receiver running the
`ReceiveAllFrom` loop with the same payload-buffer capacity over the
messages put on the wire observes exactly one callback per written pair,
in send order, the `i`-th callback carrying the `i`-th descriptor and
metadata bytes equal to the `i`-th metadata written (an empty or nil
metadata is presented as a nil reader). -/
theorem c1_round_trip (msgn oobn : Nat) (ws : List (Int × Option (List Nat)))
    (rf : Resp) (ms : List Message) (cbs : Nat → CbB)
    (hlt : msgn < 2 ^ 32) (hcb : ∀ j, (cbs j).err = none)
    (hsend : sendAndFlush (newResponse msgn oobn) ws = some (rf, ms)) :
    receiveAll msgn true ms (.opWrap .eof) cbs 0 =
      ((normWs ws).map obsOf, none) := by
  obtain ⟨bs, hms, hgood, hflat⟩ := sendAndFlush_spec msgn oobn ws rf ms hsend
  subst hms
  rw [receiveAll_batches msgn bs (.opWrap .eof) cbs 0 hcb hgood hlt]
  rw [hflat]
  simp [isEOF]

theorem c1_round_trip_witness :
    receiveAll 4096 true
        [⟨[2, 0, 0, 0, 10, 20, 0, 0, 0, 0, 0, 0, 0, 0], [[3, 4, 5]]⟩]
        (.opWrap .eof) cbZero 0 =
      ((normWs [((3 : Int), some [10, 20]), (4, none), (5, some [])]).map obsOf,
        none) :=
  c1_round_trip 4096 4096 [((3 : Int), some [10, 20]), (4, none), (5, some [])]
    ⟨4096, 170, [], [], none⟩
    [⟨[2, 0, 0, 0, 10, 20, 0, 0, 0, 0, 0, 0, 0, 0], [[3, 4, 5]]⟩] cbZero
    (by decide) (fun _ => rfl) (by decide)

theorem writeChunks_ok (N : Int) (cks : List (List Nat)) (acc : List Nat)
    (hN : 0 < N) (h : ∀ c ∈ cks, (c.length : Int) ≤ N) :
    writeChunks N cks acc = (acc ++ cks.flatten, none) := by
  induction cks generalizing acc with
  | nil => simp [writeChunks]
  | cons c cs ih =>
    have hc : (c.length : Int) ≤ N := h c (by simp)
    have hcond : ¬ (N ≤ 0 ∨ N < (c.length : Int)) := by omega
    rw [writeChunks, if_neg hcond, ih _ (fun d hd => h d (List.mem_cons_of_mem _ hd))]
    simp

theorem writeToSim_ok (N : Int) (m : WriterTo) (hN : 0 < N)
    (hf : m.finalErr = none) (h : ∀ c ∈ m.chunks, (c.length : Int) ≤ N) :
    writeToSim N m = ⟨m.chunks.flatten, m.chunks.flatten.length, none, false⟩ := by
  rw [writeToSim, writeChunks_ok N m.chunks [] hN h]
  simp [hf]

/-- Characterisation of an unblocked `Write` iteration when the metadata
source is well behaved (no own error) and every chunk passes the
limiter. -/
theorem writeIterSome_ok_cases (s : Resp) (fd : Int) (m : WriterTo)
    (hA : ¬ s.fds.length = s.fdcap) (hB : ¬ s.msgn - s.payload.length < 4)
    (h4 : 4 < s.msgn) (hf : m.finalErr = none)
    (hcks : ∀ c ∈ m.chunks, c.length + 4 ≤ s.msgn) :
    writeIterSome s fd m none false =
      (if m.chunks.flatten.length = 0 then .again
       else if s.msgn - s.payload.length - 4 < m.chunks.flatten.length then
         (if s.msgn - s.payload.length - 4 = 0 then .fail .panicked
          else .flushReq (some m.chunks.flatten) true)
       else .ok (s.appendMeta fd m.chunks.flatten false)) := by
  have hws : writeToSim ((s.msgn : Int) - 4) m =
      ⟨m.chunks.flatten, m.chunks.flatten.length, none, false⟩ :=
    writeToSim_ok _ m (by omega) hf
      (fun c hc => by have := hcks c hc; omega)
  simp [writeIterSome, msgHeaderSize, hA, hB, hws]

/-- C4: for every `response.Write` whose frame does not fit at first
(descriptor list full, no room for a header, or a `bytes.Buffer`
reallocation) and whose metadata is not unconditionally oversize, the
call performs exactly one implicit `Flush` (hence emits at most one wire
message) and retries the append against the emptied buffer exactly once:
the result is either success or the long-write error, and no further
flush or attempt is made. -/
theorem c4_bounded_retry (r : Resp) (fd : Int) (meta : Option WriterTo)
    (hr : r.err = none)
    (hblk : match meta with
      | none => writeIterNil r fd = none
      | some m => ∃ mb mc, writeIterSome r fd m none false = .flushReq mb mc)
    (hno : match meta with
      | none => True
      | some m => m.finalErr = none ∧ 4 < r.msgn ∧
          ∀ c ∈ m.chunks, c.length + 4 ≤ r.msgn) :
    (respWrite r fd meta none false).flushes = 1 ∧
    (respWrite r fd meta none false).msgs.length ≤ 1 ∧
    ((respWrite r fd meta none false).res = none ∨
      (respWrite r fd meta none false).res = some .longWrite) := by
  rcases meta with _ | m
  · have hblk' : writeIterNil r fd = none := hblk
    have hstep : respWrite r fd none none false = flushThenNil r fd none false := by
      simp [respWrite, hr, hblk']
    rw [hstep]
    by_cases h0 : r.fds.length = 0
    · have hfw : r.flushWith none false = (r, none, none) := by
        simp [Resp.flushWith, hr, h0]
      have hx : flushThenNil r fd none false = ⟨r, [], some .longWrite, 1⟩ := by
        simp [flushThenNil, hfw, hblk']
      rw [hx]
      exact ⟨rfl, by simp, Or.inr rfl⟩
    · have hfw : r.flushWith none false =
          (⟨r.msgn, r.fdcap, [], [], none⟩, some ⟨r.payload, [r.fds]⟩, none) := by
        simp [Resp.flushWith, hr, h0]
      rcases hret : writeIterNil ⟨r.msgn, r.fdcap, [], [], none⟩ fd with _ | r2
      · have hx : flushThenNil r fd none false =
            ⟨⟨r.msgn, r.fdcap, [], [], none⟩, [⟨r.payload, [r.fds]⟩],
              some .longWrite, 1⟩ := by
          simp [flushThenNil, hfw, hret]
        rw [hx]
        exact ⟨rfl, by simp, Or.inr rfl⟩
      · have hx : flushThenNil r fd none false =
            ⟨r2, [⟨r.payload, [r.fds]⟩], none, 1⟩ := by
          simp [flushThenNil, hfw, hret]
        rw [hx]
        exact ⟨rfl, by simp, Or.inl rfl⟩
  · obtain ⟨mb, mc, hw1⟩ := hblk
    obtain ⟨hfe, hm4, hcks⟩ := hno
    have hstep : respWrite r fd (some m) none false =
        flushThenSome r fd m mb mc none false := by
      simp [respWrite, hr, hw1]
    rw [hstep]
    have blockedConc :
        (r.fds.length = r.fdcap ∨ r.msgn - r.payload.length < 4) →
        (flushThenSome r fd m none false none false).flushes = 1 ∧
        (flushThenSome r fd m none false none false).msgs.length ≤ 1 ∧
        ((flushThenSome r fd m none false none false).res = none ∨
          (flushThenSome r fd m none false none false).res = some .longWrite) := by
      intro hg
      by_cases h0 : r.fds.length = 0
      · have hfw : r.flushWith none false = (r, none, none) := by
          simp [Resp.flushWith, hr, h0]
        have hw2 : writeIterSome r fd m none false = .flushReq none false :=
          writeIterSome_blocked r fd m none false hg
        have hx : flushThenSome r fd m none false none false =
            ⟨r, [], some .longWrite, 1⟩ := by
          simp [flushThenSome, hfw, hw2]
        rw [hx]
        exact ⟨rfl, by simp, Or.inr rfl⟩
      · have hfw : r.flushWith none false =
            (⟨r.msgn, r.fdcap, [], [], none⟩, some ⟨r.payload, [r.fds]⟩, none) := by
          simp [Resp.flushWith, hr, h0]
        by_cases hA1 : (0 : Nat) = r.fdcap
        · have hw2 : writeIterSome ⟨r.msgn, r.fdcap, [], [], none⟩ fd
              m none false = .flushReq none false :=
            writeIterSome_blocked _ fd m none false (Or.inl (by simpa using hA1))
          have hx : flushThenSome r fd m none false none false =
              ⟨⟨r.msgn, r.fdcap, [], [], none⟩, [⟨r.payload, [r.fds]⟩],
                some .longWrite, 1⟩ := by
            simp [flushThenSome, hfw, hw2]
          rw [hx]
          exact ⟨rfl, by simp, Or.inr rfl⟩
        · have hA1' : ¬ (⟨r.msgn, r.fdcap, [], [], none⟩ : Resp).fds.length =
              (⟨r.msgn, r.fdcap, [], [], none⟩ : Resp).fdcap := by
            simpa using hA1
          have hB1' : ¬ (⟨r.msgn, r.fdcap, [], [], none⟩ : Resp).msgn -
              (⟨r.msgn, r.fdcap, [], [], none⟩ : Resp).payload.length < 4 := by
            simp
            omega
          have hc := writeIterSome_ok_cases ⟨r.msgn, r.fdcap, [], [], none⟩ fd m
            hA1' hB1' (by simpa using hm4) hfe (by simpa using hcks)
          by_cases hn0 : m.chunks.flatten.length = 0
          · rw [if_pos hn0] at hc
            have hret : writeIterNil ⟨r.msgn, r.fdcap, [], [], none⟩ fd =
                some ((⟨r.msgn, r.fdcap, [], [], none⟩ : Resp).appendZero fd) := by
              simp [writeIterNil, msgHeaderSize, hA1]
              omega
            have hx : flushThenSome r fd m none false none false =
                ⟨(⟨r.msgn, r.fdcap, [], [], none⟩ : Resp).appendZero fd,
                  [⟨r.payload, [r.fds]⟩], none, 1⟩ := by
              simp [flushThenSome, hfw, hc, hret]
            rw [hx]
            exact ⟨rfl, by simp, Or.inl rfl⟩
          · rw [if_neg hn0] at hc
            by_cases hcap0 : r.msgn - 4 < m.chunks.flatten.length
            · rw [if_pos (by simpa using hcap0)] at hc
              rw [if_neg (by simp; omega)] at hc
              have hx : flushThenSome r fd m none false none false =
                  ⟨⟨r.msgn, r.fdcap, [], [], none⟩, [⟨r.payload, [r.fds]⟩],
                    some .longWrite, 1⟩ := by
                simp [flushThenSome, hfw, hc]
              rw [hx]
              exact ⟨rfl, by simp, Or.inr rfl⟩
            · rw [if_neg (by simpa using hcap0)] at hc
              have hx : flushThenSome r fd m none false none false =
                  ⟨(⟨r.msgn, r.fdcap, [], [], none⟩ : Resp).appendMeta fd
                      m.chunks.flatten false,
                    [⟨r.payload, [r.fds]⟩], none, 1⟩ := by
                simp [flushThenSome, hfw, hc]
              rw [hx]
              exact ⟨rfl, by simp, Or.inl rfl⟩
    by_cases hA : r.fds.length = r.fdcap
    · have hw1' : writeIterSome r fd m none false = .flushReq none false :=
        writeIterSome_blocked r fd m none false (Or.inl hA)
      rw [hw1'] at hw1
      cases hw1
      exact blockedConc (Or.inl hA)
    · by_cases hB : r.msgn - r.payload.length < 4
      · have hw1' : writeIterSome r fd m none false = .flushReq none false :=
          writeIterSome_blocked r fd m none false (Or.inr hB)
        rw [hw1'] at hw1
        cases hw1
        exact blockedConc (Or.inr hB)
      · have hc := writeIterSome_ok_cases r fd m hA hB hm4 hfe hcks
        rw [hc] at hw1
        by_cases hn0 : m.chunks.flatten.length = 0
        · rw [if_pos hn0] at hw1
          cases hw1
        · rw [if_neg hn0] at hw1
          by_cases hcap0 : r.msgn - r.payload.length - 4 < m.chunks.flatten.length
          · rw [if_pos hcap0] at hw1
            by_cases hz : r.msgn - r.payload.length - 4 = 0
            · rw [if_pos hz] at hw1
              cases hw1
            · rw [if_neg hz] at hw1
              cases hw1
              by_cases h0 : r.fds.length = 0
              · have hfw : r.flushWith none false = (r, none, none) := by
                  simp [Resp.flushWith, hr, h0]
                have hw2 := writeIterSome_mb r fd m m.chunks.flatten true hA hB
                have hx : flushThenSome r fd m (some m.chunks.flatten) true
                    none false =
                    ⟨r.appendMeta fd m.chunks.flatten true, [], none, 1⟩ := by
                  simp [flushThenSome, hfw, hw2]
                rw [hx]
                exact ⟨rfl, by simp, Or.inl rfl⟩
              · have hfw : r.flushWith none false =
                    (⟨r.msgn, r.fdcap, [], [], none⟩,
                      some ⟨r.payload, [r.fds]⟩, none) := by
                  simp [Resp.flushWith, hr, h0]
                by_cases hA1 : (0 : Nat) = r.fdcap
                · have hw2 : writeIterSome ⟨r.msgn, r.fdcap, [], [], none⟩ fd
                      m (some m.chunks.flatten) true = .flushReq
                        (some m.chunks.flatten) true :=
                    writeIterSome_blocked _ fd m _ true
                      (Or.inl (by simpa using hA1))
                  have hx : flushThenSome r fd m (some m.chunks.flatten) true
                      none false =
                      ⟨⟨r.msgn, r.fdcap, [], [], none⟩, [⟨r.payload, [r.fds]⟩],
                        some .longWrite, 1⟩ := by
                    simp [flushThenSome, hfw, hw2]
                  rw [hx]
                  exact ⟨rfl, by simp, Or.inr rfl⟩
                · have hw2 := writeIterSome_mb ⟨r.msgn, r.fdcap, [], [], none⟩
                    fd m m.chunks.flatten true (by simpa using hA1)
                    (by simp; omega)
                  have hx : flushThenSome r fd m (some m.chunks.flatten) true
                      none false =
                      ⟨(⟨r.msgn, r.fdcap, [], [], none⟩ : Resp).appendMeta fd
                          m.chunks.flatten true,
                        [⟨r.payload, [r.fds]⟩], none, 1⟩ := by
                    simp [flushThenSome, hfw, hw2]
                  rw [hx]
                  exact ⟨rfl, by simp, Or.inl rfl⟩
          · rw [if_neg hcap0] at hw1
            cases hw1

theorem c4_bounded_retry_witness :
    (respWrite ⟨8, 1, [0, 0, 0, 0], [5], none⟩ 7 none none false).flushes = 1 ∧
    (respWrite ⟨8, 1, [0, 0, 0, 0], [5], none⟩ 7 none none false).msgs.length ≤ 1 ∧
    ((respWrite ⟨8, 1, [0, 0, 0, 0], [5], none⟩ 7 none none false).res = none ∨
      (respWrite ⟨8, 1, [0, 0, 0, 0], [5], none⟩ 7 none none false).res =
        some .longWrite) :=
  c4_bounded_retry ⟨8, 1, [0, 0, 0, 0], [5], none⟩ 7 none rfl (by decide) trivial

end Graceful
